import Mathlib

set_option maxHeartbeats 1000000
set_option maxRecDepth 8192

/-!
A shallow embedding of the goiso9660 layout planner and binary encoder
(the `iso9660` Go package): name sanitisation, directory-record and
path-table marshalling, the filesystem scanner, the layout planner and the
hidden-marking helper, together with theorems about them.

Conventions used throughout:

* Go strings are modelled as Lean `String` (sequences of Unicode scalar
  values).  Go compares strings byte-wise over their UTF-8 encoding, and
  UTF-8 is order-preserving with respect to scalar values, so byte-wise
  comparison of Go strings coincides with lexicographic comparison of the
  scalar sequences.
* Machine integers are modelled as `Nat` with explicit `% 2^32`, `% 2^16`
  and `% 256` reductions exactly where the Go code performs unsigned
  conversions or where unsigned arithmetic can wrap.
* `log.Printf` diagnostics are ignored; `log.Panicf` aborts the Go
  program, and each aborting sanity check is noted in a comment at the
  place where it occurs in the source.
-/

/-! ### Constants (`constants.go`) -/

def SectorSize : Nat := 2048

def JolietMaxFilenameChars : Nat := 64

def SystemAreaNumSectors : Nat := 16

/-- Size of a Directory Record excluding identifier-related fields. -/
def drFixedPartSize : Nat := 33

/-- Size of a Path Table Record excluding identifier-related fields. -/
def ptRecFixedPartSize : Nat := 8

/-! ### Byte-level encoders -/

/-- `binary.LittleEndian.PutUint32`: the four bytes of a `uint32`, low
byte first (a value `≥ 2^32` is reduced, matching Go's conversion to
`uint32` on field assignment). -/
def le32 (v : Nat) : List Nat :=
  [v % 256, v / 256 % 256, v / 65536 % 256, v / 16777216 % 256]

/-- `binary.BigEndian.PutUint32`. -/
def be32 (v : Nat) : List Nat :=
  [v / 16777216 % 256, v / 65536 % 256, v / 256 % 256, v % 256]

/-- `binary.LittleEndian.PutUint16`. -/
def le16 (v : Nat) : List Nat := [v % 256, v / 256 % 256]

/-- `binary.BigEndian.PutUint16`. -/
def be16 (v : Nat) : List Nat := [v / 256 % 256, v % 256]

/-- UTF-8 encoding of one scalar value: the bytes underlying a Go string. -/
def utf8Bytes (c : Char) : List Nat :=
  let n := c.toNat
  if n < 128 then [n]
  else if n < 2048 then [192 + n / 64, 128 + n % 64]
  else if n < 65536 then [224 + n / 4096, 128 + n / 64 % 64, 128 + n % 64]
  else [240 + n / 262144, 128 + n / 4096 % 64, 128 + n / 64 % 64, 128 + n % 64]

/-- Go `[]byte(s)`: the UTF-8 bytes of a string. -/
def strBytes (s : String) : List Nat := s.data.flatMap utf8Bytes

/-- `unicode/utf16.Encode` on one scalar value.  Lean `Char` excludes
surrogate scalars and values above `0x10FFFF`, so the Go encoder's
replacement-character branch is unreachable here. -/
def utf16Units (c : Char) : List Nat :=
  let n := c.toNat
  if n < 65536 then [n]
  else [55296 + (n - 65536) / 1024, 56320 + (n - 65536) % 1024]

/-- `encodeUTF16BE` (`utils.go` area): UCS-2 big-endian bytes of a string,
i.e. `utf16.Encode` followed by a big-endian write of every code unit. -/
def encodeUTF16BE (s : String) : List Nat :=
  (s.data.flatMap utf16Units).flatMap (fun u => [u / 256 % 256, u % 256])

/-! ### Byte-wise lexicographic comparison and the `sort.Slice` model -/

/-- `bytes.Compare x y < 0`: strict byte-wise lexicographic order. -/
def bytesLt : List Nat → List Nat → Bool
  | [], [] => false
  | [], _ :: _ => true
  | _ :: _, [] => false
  | a :: as, b :: bs => if a < b then true else if b < a then false else bytesLt as bs

/-- Go string comparison `a < b`: byte-wise over the UTF-8 encodings,
which (UTF-8 being order-preserving) equals lexicographic comparison of
the scalar-value sequences. -/
def goStrLt (a b : String) : Bool :=
  bytesLt (a.data.map Char.toNat) (b.data.map Char.toNat)

/-- Insert `a` into `l` in front of the first element `b` with `le a b`. -/
def insertLe {α : Type} (le : α → α → Bool) (a : α) : List α → List α
  | [] => [a]
  | b :: bs => if le a b then a :: b :: bs else b :: insertLe le a bs

/-- Insertion sort.  `sort.Slice(xs, less)` sorts with an unspecified
unstable algorithm; any conforming output is a permutation of `xs` that is
sorted with respect to `less`, which `sortLe` with `le a b = !(less b a)`
produces.  When the comparator keys are pairwise distinct the sorted
permutation is unique, so the model agrees with Go exactly; otherwise it
agrees up to the order of comparator-equal elements, which every ordering
property proved below ignores. -/
def sortLe {α : Type} (le : α → α → Bool) : List α → List α
  | [] => []
  | a :: as => insertLe le a (sortLe le as)

/-! ### Name sanitiser (`utils.go`: `sanitizeISO9660Name`, `truncateJolietName`) -/

/-- ASCII fragment of Go `strings.ToUpper`.  The Go function applies the
full Unicode simple case mapping; the two agree on ASCII, and the
sanitiser below replaces (almost all) non-ASCII runes by `_` either way.
Every theorem below evaluates the sanitiser on ASCII inputs only. -/
def goToUpperChar (c : Char) : Char :=
  if 97 ≤ c.toNat ∧ c.toNat ≤ 122 then Char.ofNat (c.toNat - 32) else c

/-- The character test `(r >= 'A' && r <= 'Z') || (r >= '0' && r <= '9') || r == '_'`. -/
def isAllowedISOChar (c : Char) : Bool :=
  (65 ≤ c.toNat && c.toNat ≤ 90) || (48 ≤ c.toNat && c.toNat ≤ 57) || c.toNat == 95

/-- `sanitizePartFunc` (closure inside `sanitizeISO9660Name`): upper-case,
replace disallowed runes by `_` (keeping `.` when `allowDot`), then
truncate to `maxLength`.  The mapped output is all ASCII, so Go's byte
truncation `sanitized[:maxLength]` is rune truncation. -/
def sanitizePart (part : String) (maxLength : Nat) (allowDot : Bool) : String :=
  let sanitized := (part.data.map goToUpperChar).map fun r =>
    if isAllowedISOChar r then r else if allowDot && r == '.' then '.' else '_'
  String.mk (if sanitized.length > maxLength then sanitized.take maxLength else sanitized)

/-- The `strings.LastIndex(nameToProcess, ".")` split into `base`/`ext`:
`base`/`ext` are cut at the last dot when that dot is not the final byte
(`lastDot != -1 && lastDot < len(nameToProcess)-1`), else `ext` is empty.
`'.'` is ASCII, so the byte index of the last dot cuts the string between
whole runes and the split can be done on the rune list. -/
def splitAtLastDot (cs : List Char) : List Char × List Char :=
  match cs.reverse.findIdx? (fun c => c == '.') with
  | none => (cs, [])
  | some j =>
    if j == 0 then (cs, [])
    else (cs.take (cs.length - 1 - j), cs.drop (cs.length - j))

/-- `strings.SplitN(s, ".", 2)`: cut at the first dot (the caller only
uses it when `s` contains a dot). -/
def splitAtFirstDot (cs : List Char) : List Char × List Char :=
  match cs.findIdx? (fun c => c == '.') with
  | none => (cs, [])
  | some i => (cs.take i, cs.drop (i + 1))

/-- `sanitizeISO9660Name` (`utils.go`): ISO9660 Level 1 name sanitiser
(the caller appends `";1"` for files afterwards). -/
def sanitizeISO9660Name (originalName : String) (isDirectory : Bool) : String :=
  let nameToProcess := originalName.data
  let baseExt := if !isDirectory then splitAtLastDot nameToProcess else (nameToProcess, [])
  let ext := String.mk baseExt.2
  let maxBaseLen := 8
  let maxExtLen := 3
  let sanitizedBase := sanitizePart (String.mk baseExt.1) maxBaseLen (!isDirectory)
  if isDirectory then
    -- for directories, remove any dots that might have slipped through
    let sb0 := sanitizedBase.data.map fun c => if c == '.' then '_' else c
    let sb := if sb0.length > 8 then sb0.take 8 else sb0
    if String.mk sb == "" then "DIR" else String.mk sb
  else
    -- files -> ensure 8.3 format
    let finalExt0 := if ext == "" then "" else sanitizePart ext maxExtLen false
    -- base part contained dots, re-split for 8.3 if necessary
    let bf :=
      if sanitizedBase.data.contains '.' && finalExt0 == "" then
        let parts := splitAtFirstDot sanitizedBase.data
        let potentialBase := sanitizePart (String.mk parts.1) 8 false
        let potentialExt := sanitizePart (String.mk parts.2) 3 false
        if potentialBase == "" then (sanitizedBase, finalExt0)
        else (potentialBase, if potentialExt == "" then finalExt0 else potentialExt)
      else (sanitizedBase, finalExt0)
    -- base does not exceed 8 chars after any re-splitting
    let finalBase := if bf.1.data.length > 8 then String.mk (bf.1.data.take 8) else bf.1
    let finalExt := bf.2
    let finalName := if finalExt == "" then finalBase else finalBase ++ "." ++ finalExt
    let finalName := if finalName == "" || finalName == "." then "FILE" else finalName
    -- remove leading dot when base is empty and ext exists
    if finalName.data.head? == some '.' && finalName.data.length > 1
        && !(finalExt == "") && finalBase == "" then
      finalExt
    else finalName

/-- `truncateJolietName` (`utils.go`): truncate to
`JolietMaxFilenameChars` runes (`[]rune` conversion), leaving the
sentinels `"\x00"`, `"."` and `".."` untouched.  The truncation-warning
`log.Printf` is ignored. -/
def truncateJolietName (originalName : String) : String :=
  if originalName == "\x00" || originalName == "." || originalName == ".." then
    originalName
  else
    let runes := originalName.data
    if runes.length > JolietMaxFilenameChars then
      String.mk (runes.take JolietMaxFilenameChars)
    else originalName

/-! ### Sector counting (`utils.go`) -/

/-- `sectorsToContainBytes` (`byteSize` is a Go `int`, converted to
`uint32` before the wrapping addition of `SectorSize - 1`). -/
def sectorsToContainBytes (byteSize : Nat) : Nat :=
  if byteSize == 0 then 0
  else (byteSize % 4294967296 + (SectorSize - 1)) % 4294967296 / SectorSize

/-- `sectorsToContainFileBytes` (`fileDataSizeBytes` is a `uint32`; the
addition `fileDataSizeBytes + SectorSize - 1` is `uint32` arithmetic and
wraps at `2^32`). -/
def sectorsToContainFileBytes (fileDataSizeBytes : Nat) : Nat :=
  if fileDataSizeBytes == 0 then 1
  else (fileDataSizeBytes + (SectorSize - 1)) % 4294967296 / SectorSize

/-! ### Data model (`types.go`: `fileEntry`, record field structs) -/

/-- `fileEntry`: the internal representation of a scanned file or
directory.  `diskPath` and `isoPath` (used only for reading file bytes,
`os.Stat` timestamps and diagnostics) are omitted; recording timestamps
enter the directory-record encoder through an explicit oracle instead.
`iso9660Size`/`jolietSize` are `uint32`, `pathTableDirNum` is `uint16`. -/
structure FileEntry where
  originalName : String := ""
  isDir : Bool := false
  level : Nat := 0
  parentIndex : Nat := 0
  children : List Nat := []
  iso9660Name : String := ""
  jolietName : String := ""
  iso9660Size : Nat := 0
  jolietSize : Nat := 0
  iso9660Sector : Nat := 0
  jolietSector : Nat := 0
  actualISO9660DrSize : Nat := 0
  actualJolietDrSize : Nat := 0
  pathTableDirNum : Nat := 0
  isHidden : Bool := false
  deriving Repr, DecidableEq

instance : Inhabited FileEntry := ⟨{}⟩

/-- Indexing `b.fileEntries[i]`.  The Go code only ever indexes with
valid indices (it would panic otherwise); out-of-range access returns the
zero `fileEntry` here. -/
def getEntryD (t : List FileEntry) (i : Nat) : FileEntry := t.getD i default

/-- `directoryRecordFields`: the fixed-size part of a Directory Record.
`RecordingTime` is the 7-byte recorded time. -/
structure DirectoryRecordFields where
  ExtendedAttributeRecordLength : Nat := 0
  LocationExtent : Nat := 0
  DataLength : Nat := 0
  RecordingTime : List Nat := List.replicate 7 0
  FileFlags : Nat := 0
  FileUnitSize : Nat := 0
  InterleaveGapSize : Nat := 0
  VolumeSequenceNumber : Nat := 0
  deriving Repr, DecidableEq

instance : Inhabited DirectoryRecordFields := ⟨{}⟩

/-- `pathTableRecordFields`: the fixed-size part of a Path Table Record. -/
structure PathTableRecordFields where
  ExtendedAttributeRecordLength : Nat := 0
  LocationOfExtent : Nat := 0
  ParentDirectoryNumber : Nat := 0
  deriving Repr, DecidableEq

/-! ### Directory-record encoder (`constants.go`) -/

/-- `copy(buf[18:25], fields.RecordingTime[:])` into a zeroed 7-byte
region: the recorded time truncated or zero-padded to 7 bytes. -/
def pad7 (l : List Nat) : List Nat := l.take 7 ++ List.replicate (7 - l.length) 0

/-- `marshalDirectoryRecord`: serialise the fixed fields and the
identifier into one Directory Record.  The Go code allocates a zeroed
buffer of `recordLen` bytes and fills the disjoint regions in order; the
concatenation below lists those regions in the same order.  Note the two
`byte` truncations present in the source: `identifierLen :=
byte(len(identifier))` (reduced mod 256, and used for `recordLen`), and
`buf[0] = byte(recordLen)` (reduced mod 256). -/
def marshalDirectoryRecord (fields : DirectoryRecordFields) (identifier : List Nat) :
    List Nat :=
  let identifierLen := identifier.length % 256
  let recordLen0 := drFixedPartSize + identifierLen
  let recordLen := if recordLen0 % 2 ≠ 0 then recordLen0 + 1 else recordLen0
  [recordLen % 256, fields.ExtendedAttributeRecordLength % 256]
    ++ le32 fields.LocationExtent ++ be32 fields.LocationExtent
    ++ le32 fields.DataLength ++ be32 fields.DataLength
    ++ pad7 fields.RecordingTime
    ++ [fields.FileFlags % 256, fields.FileUnitSize % 256, fields.InterleaveGapSize % 256]
    ++ le16 fields.VolumeSequenceNumber ++ be16 fields.VolumeSequenceNumber
    ++ [identifierLen]
    ++ identifier.take (recordLen - 33)
    ++ List.replicate (recordLen - 33 - min identifier.length (recordLen - 33)) 0

/-- `calculateDirectoryRecordSize`: total byte length of a Directory
Record including padding (`int` arithmetic, no truncation). -/
def calculateDirectoryRecordSize (identifierBytes : List Nat) : Nat :=
  let length := drFixedPartSize + identifierBytes.length
  if length % 2 ≠ 0 then length + 1 else length

/-- `getDRIdentifierBytes`: the byte representation of a Directory Record
identifier, with the special cases for the root, `"."` and `".."`. -/
def getDRIdentifierBytes (name : String) (isJoliet : Bool)
    (isIdentifierForRootItself : Bool) : List Nat :=
  if isJoliet then
    if isIdentifierForRootItself && (name == "\x00" || name == ".") then [0]
    else if name == "." then encodeUTF16BE "."
    else if name == ".." then encodeUTF16BE ".."
    else encodeUTF16BE name
  else
    if name == "." || (isIdentifierForRootItself && name == "") then [0]
    else if name == ".." then [1]
    else strBytes name

/-- `populateDirectoryRecordFields`: fill the fixed fields of a Directory
Record for the entity `targetEntry`, encoded under the per-record name
`drIDNameToEncode`.  The recorded time comes from `os.Stat` on the
entity's disk path (the host-filesystem walker, an out-of-scope external
collaborator per the spec); it is supplied here as the 7 pre-formatted
bytes `recTime`. -/
def populateDirectoryRecordFields (recTime : List Nat)
    (extentLBA extentOrDataSize : Nat) (drIDNameToEncode : String)
    (targetEntry : FileEntry) : DirectoryRecordFields :=
  let baseFileFlags : Nat := if targetEntry.isDir then 2 else 0
  -- hidden flag (bit 0) applies only when the identifier names the entity
  -- itself, not to "." / ".." navigational entries nor the root DR
  let finalFileFlags : Nat :=
    if !(drIDNameToEncode == ".") && !(drIDNameToEncode == "..")
        && !(drIDNameToEncode == "") && !(drIDNameToEncode == "\x00") then
      if targetEntry.isHidden then baseFileFlags ||| 1 else baseFileFlags
    else baseFileFlags
  { ExtendedAttributeRecordLength := 0
    LocationExtent := extentLBA
    DataLength := extentOrDataSize
    RecordingTime := recTime
    FileFlags := finalFileFlags
    FileUnitSize := 0
    InterleaveGapSize := 0
    VolumeSequenceNumber := 1 }

/-- `createDirectoryRecordBytes`: populate the fields and marshal them
with the appropriate identifier bytes. -/
def createDirectoryRecordBytes (recTime : List Nat)
    (extentLBA extentOrDataSize : Nat) (drIDNameToEncode : String)
    (targetEntry : FileEntry) (isJoliet : Bool) : List Nat :=
  let drFields :=
    populateDirectoryRecordFields recTime extentLBA extentOrDataSize
      drIDNameToEncode targetEntry
  let isTargetEntryRoot := targetEntry.pathTableDirNum == 1
  let isNameForRootItself :=
    if isTargetEntryRoot then
      if isJoliet then drIDNameToEncode == "\x00" || drIDNameToEncode == "."
      else drIDNameToEncode == "" || drIDNameToEncode == "."
    else false
  marshalDirectoryRecord drFields
    (getDRIdentifierBytes drIDNameToEncode isJoliet isNameForRootItself)

/-! ### Filesystem scanner (`scanner.go`) -/

/-!
An abstract source-filesystem tree: the out-of-scope host-filesystem
walker supplies, for each entry, its name, file/directory kind and (for
regular files) its byte size.  Non-regular, non-directory entries are
skipped by the scanner and are not modelled.  `os.ReadDir` returns
entries sorted by filename; the forest is taken in whatever order the
walker yields, which no theorem below depends on.
-/
mutual
inductive FSNode where
  | file (name : String) (size : Nat)
  | dir (name : String) (entries : FSForest)
  deriving Repr, DecidableEq
inductive FSForest where
  | nil
  | cons (n : FSNode) (f : FSForest)
  deriving Repr, DecidableEq
end

/-- `b.fileEntries[parentEntryIndex].children = append(..., newEntryIndex)`. -/
def appendChildIdx (t : List FileEntry) (parentIdx childIdx : Nat) : List FileEntry :=
  t.set parentIdx
    { getEntryD t parentIdx with
      children := (getEntryD t parentIdx).children ++ [childIdx] }

/-!
`scanDirectoryRecursive`: depth-first scan.  The state is the entry
table together with `*nextPathTableNumber` (a `uint16` counter; the value
is reduced mod `2^16` when stored, which reproduces Go's wrapping since
the counter only ever increments by one).  For a regular file the stored
size is `uint32(fileInfo.Size())`, i.e. the size reduced mod `2^32`; the
scan has no error path for oversized files.  (I/O errors from `os.ReadDir`
and `os.Stat`, which abort the Go scan, cannot occur on the abstract
tree and are not modelled.)
-/
mutual
def scanNodeM (parentIdx : Nat) (st : List FileEntry × Nat) (n : FSNode) :
    List FileEntry × Nat :=
  match n with
  | .file name size =>
    let t := st.1
    let fe : FileEntry :=
      { originalName := name
        isDir := false
        level := (getEntryD t parentIdx).level + 1
        parentIndex := parentIdx
        iso9660Size := size % 4294967296
        jolietSize := size % 4294967296 }
    let t1 := t ++ [fe]
    (appendChildIdx t1 parentIdx (t1.length - 1), st.2)
  | .dir name entries =>
    let t := st.1
    let fe : FileEntry :=
      { originalName := name
        isDir := true
        level := (getEntryD t parentIdx).level + 1
        parentIndex := parentIdx
        pathTableDirNum := st.2 % 65536 }
    let t1 := t ++ [fe]
    let newIdx := t1.length - 1
    scanForestM newIdx (appendChildIdx t1 parentIdx newIdx, st.2 + 1) entries
def scanForestM (parentIdx : Nat) (st : List FileEntry × Nat) :
    FSForest → List FileEntry × Nat
  | .nil => st
  | .cons n f => scanForestM parentIdx (scanNodeM parentIdx st n) f
end

/-- `ScanSourceDirectory`: start from the synthetic root entry
(`originalName` sentinel `"\x00"`, path-table number 1, its own parent)
and scan the contents of the source directory below it. -/
def ScanSourceDirectory (contents : FSForest) : List FileEntry :=
  let rootEntry : FileEntry :=
    { originalName := "\x00"
      isDir := true
      level := 0
      parentIndex := 0
      pathTableDirNum := 1 }
  (scanForestM 0 ([rootEntry], 2) contents).1

/-! ### Layout planner (`layout.go`) -/

/-- Per-entry body of `assignSanitizedNamesAndDrSizes`. -/
def assignNamesEntry (f : FileEntry) : FileEntry :=
  let isRootEntry := f.pathTableDirNum == 1
  let f1 :=
    if f.isDir then
      if isRootEntry then { f with iso9660Name := "", jolietName := "\x00" }
      else
        { f with
          iso9660Name := sanitizeISO9660Name f.originalName true
          jolietName := truncateJolietName f.originalName }
    else
      { f with
        iso9660Name := sanitizeISO9660Name f.originalName false ++ ";1"
        jolietName := truncateJolietName f.originalName }
  { f1 with
    actualISO9660DrSize :=
      calculateDirectoryRecordSize (getDRIdentifierBytes f1.iso9660Name false isRootEntry)
    actualJolietDrSize :=
      calculateDirectoryRecordSize (getDRIdentifierBytes f1.jolietName true isRootEntry) }

/-- `assignSanitizedNamesAndDrSizes`: annotate every entry with its two
sanitised names and the two directory-record sizes. -/
def assignSanitizedNamesAndDrSizes (t : List FileEntry) : List FileEntry :=
  t.map assignNamesEntry

/-- `calculateSingleDirectoryExtentSizeBytes`: byte size of one
directory's listing (`.` + `..` + children), rounded up to a whole
sector.  `totalDRBytes` is a Go `int`; it is converted to `uint32` before
the wrapping addition, and the final multiplication is `uint32` as well.
(The two `log.Panicf` zero-size sanity checks cannot fire: the `.` and
`..` records alone contribute at least 68 bytes.) -/
def calculateSingleDirectoryExtentSizeBytes (t : List FileEntry) (dirEntryIndex : Nat)
    (isJoliet : Bool) : Nat :=
  let dirEntry := getEntryD t dirEntryIndex
  let isDirEntryRoot := dirEntry.pathTableDirNum == 1
  let dotDRSize := calculateDirectoryRecordSize (getDRIdentifierBytes "." isJoliet isDirEntryRoot)
  let dotDotDRSize := calculateDirectoryRecordSize (getDRIdentifierBytes ".." isJoliet false)
  let totalDRBytes := dirEntry.children.foldl
    (fun acc childIndex =>
      acc + (if isJoliet then (getEntryD t childIndex).actualJolietDrSize
             else (getEntryD t childIndex).actualISO9660DrSize))
    (dotDRSize + dotDotDRSize)
  let numSectors := (totalDRBytes % 4294967296 + (SectorSize - 1)) % 4294967296 / SectorSize
  numSectors * SectorSize % 4294967296

/-- `calculateAllDirectoryExtentSizes`: in-place loop over the table
setting both extent sizes of every directory (modelled as a fold that
updates one index at a time, like the Go loop). -/
def calculateAllDirectoryExtentSizes (t : List FileEntry) : List FileEntry :=
  (List.range t.length).foldl
    (fun acc i =>
      if (getEntryD acc i).isDir then
        acc.set i
          { getEntryD acc i with
            iso9660Size := calculateSingleDirectoryExtentSizeBytes acc i false
            jolietSize := calculateSingleDirectoryExtentSizeBytes acc i true }
      else acc)
    t

/-- First pass of `assignContentLBAs`: ISO9660 directory extents.  (The
`log.Panicf` checks — zero `iso9660Size` or size not a sector multiple —
abort the Go program; they cannot fire on tables produced by
`calculateAllDirectoryExtentSizes`.) -/
def assignIsoDirLBAs (st : List FileEntry × Nat) : List FileEntry × Nat :=
  (List.range st.1.length).foldl
    (fun acc i =>
      if (getEntryD acc.1 i).isDir then
        let f := getEntryD acc.1 i
        (acc.1.set i { f with iso9660Sector := acc.2 },
         (acc.2 + f.iso9660Size / SectorSize) % 4294967296)
      else acc)
    st

/-- Second pass of `assignContentLBAs`: file data extents, shared between
the two namespaces (`f.iso9660Sector` and `f.jolietSector` are both set
to the current LBA). -/
def assignFileLBAs (st : List FileEntry × Nat) : List FileEntry × Nat :=
  (List.range st.1.length).foldl
    (fun acc i =>
      if (getEntryD acc.1 i).isDir then acc
      else
        let f := getEntryD acc.1 i
        (acc.1.set i { f with iso9660Sector := acc.2, jolietSector := acc.2 },
         (acc.2 + sectorsToContainFileBytes f.iso9660Size) % 4294967296))
    st

/-- Third pass of `assignContentLBAs`: Joliet directory extents. -/
def assignJolietDirLBAs (st : List FileEntry × Nat) : List FileEntry × Nat :=
  (List.range st.1.length).foldl
    (fun acc i =>
      if (getEntryD acc.1 i).isDir then
        let f := getEntryD acc.1 i
        (acc.1.set i { f with jolietSector := acc.2 },
         (acc.2 + f.jolietSize / SectorSize) % 4294967296)
      else acc)
    st

/-- `assignContentLBAs`: ISO9660 directory extents, then file data, then
Joliet directory extents. -/
def assignContentLBAs (t : List FileEntry) (startLBA : Nat) : List FileEntry × Nat :=
  assignJolietDirLBAs (assignFileLBAs (assignIsoDirLBAs (t, startLBA)))

/-! ### Path-table encoder (`constants.go`: `createPathTable` and friends) -/

/-- The identifier bytes of a directory's path-table record: a single
`0x00` byte for the root (`pathTableDirNum == 1`), otherwise the UCS-2BE
bytes of the Joliet name or the raw bytes of the ISO9660 name.  (This
logic appears verbatim both in the sort comparator and in the record
emission loop of `createPathTable`.) -/
def ptIdentBytes (isJoliet : Bool) (e : FileEntry) : List Nat :=
  if e.pathTableDirNum == 1 then [0]
  else if isJoliet then encodeUTF16BE e.jolietName
  else strBytes e.iso9660Name

/-- The M-type comparator inside `createPathTable`'s `sort.Slice`:
primary key the parent's path-table number (via `parentIndex` lookups in
the full table), secondary key the identifier bytes. -/
def ptMLess (t : List FileEntry) (isJoliet : Bool) (dirI dirJ : FileEntry) : Bool :=
  if !(dirI.parentIndex == dirJ.parentIndex)
      && !((getEntryD t dirI.parentIndex).pathTableDirNum
            == (getEntryD t dirJ.parentIndex).pathTableDirNum) then
    decide ((getEntryD t dirI.parentIndex).pathTableDirNum
            < (getEntryD t dirJ.parentIndex).pathTableDirNum)
  else
    bytesLt (ptIdentBytes isJoliet dirI) (ptIdentBytes isJoliet dirJ)

/-- The full `sort.Slice` comparator of `createPathTable`: M-type sorts
hierarchically, L-type by the directory's own path-table number. -/
def ptLess (t : List FileEntry) (isJoliet useBigEndian : Bool)
    (dirI dirJ : FileEntry) : Bool :=
  if useBigEndian then ptMLess t isJoliet dirI dirJ
  else decide (dirI.pathTableDirNum < dirJ.pathTableDirNum)

/-- The filtered and sorted directory list that `createPathTable` emits
records for, in emission order. -/
def createPathTableSortedDirs (t : List FileEntry) (isJoliet useBigEndian : Bool) :
    List FileEntry :=
  sortLe (fun a b => !(ptLess t isJoliet useBigEndian b a))
    (t.filter (fun fe => fe.isDir && decide (0 < fe.pathTableDirNum)))

/-- `marshalPathTableRecord`: one path-table record.  As in the DR
marshaller, `identifierLen := byte(len(identifier))` truncates mod 256
and feeds `recordFinalLen`, while the odd-length padding test uses the
untruncated length. -/
def marshalPathTableRecord (fields : PathTableRecordFields) (identifier : List Nat)
    (useBigEndian : Bool) : List Nat :=
  let identifierLen := identifier.length % 256
  let recordFinalLen :=
    ptRecFixedPartSize + identifierLen + if identifier.length % 2 ≠ 0 then 1 else 0
  [identifierLen, fields.ExtendedAttributeRecordLength % 256]
    ++ (if useBigEndian then be32 fields.LocationOfExtent else le32 fields.LocationOfExtent)
    ++ (if useBigEndian then be16 fields.ParentDirectoryNumber
        else le16 fields.ParentDirectoryNumber)
    ++ identifier.take (recordFinalLen - 8)
    ++ List.replicate (recordFinalLen - 8 - min identifier.length (recordFinalLen - 8)) 0

/-- The `pathTableRecordFields` built for one directory in
`createPathTable`'s emission loop. -/
def ptRecordFields (t : List FileEntry) (isJoliet : Bool) (dir : FileEntry) :
    PathTableRecordFields :=
  { ExtendedAttributeRecordLength := 0
    LocationOfExtent := if isJoliet then dir.jolietSector else dir.iso9660Sector
    ParentDirectoryNumber :=
      if dir.pathTableDirNum == 1 then 1
      else (getEntryD t dir.parentIndex).pathTableDirNum }

/-- `createPathTable`: filter the directories, sort them, and emit one
record per directory into the buffer. -/
def createPathTable (t : List FileEntry) (isJoliet useBigEndian : Bool) : List Nat :=
  (createPathTableSortedDirs t isJoliet useBigEndian).flatMap fun dir =>
    marshalPathTableRecord (ptRecordFields t isJoliet dir) (ptIdentBytes isJoliet dir)
      useBigEndian

/-- `calculatePathTableTotalBytes`: the unpadded total byte length of a
path table (`int` arithmetic). -/
def calculatePathTableTotalBytes (t : List FileEntry) (isJoliet : Bool) : Nat :=
  t.foldl
    (fun totalBytes fe =>
      if fe.isDir && decide (0 < fe.pathTableDirNum) then
        let identifierBytes := ptIdentBytes isJoliet fe
        totalBytes + ptRecFixedPartSize + identifierBytes.length
          + (if identifierBytes.length % 2 ≠ 0 then 1 else 0)
      else totalBytes)
    0

/-! ### Path-table LBA assignment and the full layout (`layout.go`, `builder.go`) -/

/-- `assignPathTableSetLBAs`: `(lbaL, lbaM, nextLBA)` (`uint32` sums). -/
def assignPathTableSetLBAs (startLBA numSectorsL numSectorsM : Nat) : Nat × Nat × Nat :=
  let nextAfterL := (startLBA + numSectorsL) % 4294967296
  (startLBA, nextAfterL, (nextAfterL + numSectorsM) % 4294967296)

/-- The eight path-table LBAs of the builder, plus the LBA following the
path-table area (the value `determinePathTableLBAs` returns). -/
structure PathTableLBAs where
  lbaPvdPathTableL : Nat
  lbaPvdPathTableM : Nat
  lbaSvdPathTableL : Nat
  lbaSvdPathTableM : Nat
  lbaPvdPathTableL2 : Nat
  lbaPvdPathTableM2 : Nat
  lbaSvdPathTableL2 : Nat
  lbaSvdPathTableM2 : Nat
  nextLBA : Nat
  deriving Repr, DecidableEq

/-- `determinePathTableLBAs`: size the four tables and hand out LBAs for
the eight placements in the fixed order. -/
def determinePathTableLBAs (t : List FileEntry) (startLBA : Nat) : PathTableLBAs :=
  let pvdPtLBytes := calculatePathTableTotalBytes t false
  let svdPtLBytes := calculatePathTableTotalBytes t true
  let numSecPvdL := sectorsToContainBytes pvdPtLBytes
  let numSecPvdM := numSecPvdL
  let numSecSvdL := sectorsToContainBytes svdPtLBytes
  let numSecSvdM := numSecSvdL
  let s1 := assignPathTableSetLBAs startLBA numSecPvdL numSecPvdM
  let s2 := assignPathTableSetLBAs s1.2.2 numSecSvdL numSecSvdM
  let s3 := assignPathTableSetLBAs s2.2.2 numSecPvdL numSecPvdM
  let s4 := assignPathTableSetLBAs s3.2.2 numSecSvdL numSecSvdM
  { lbaPvdPathTableL := s1.1, lbaPvdPathTableM := s1.2.1
    lbaSvdPathTableL := s2.1, lbaSvdPathTableM := s2.2.1
    lbaPvdPathTableL2 := s3.1, lbaPvdPathTableM2 := s3.2.1
    lbaSvdPathTableL2 := s4.1, lbaSvdPathTableM2 := s4.2.1
    nextLBA := s4.2.2 }

/-- The outputs of `calculateLayout`: the annotated entity table and the
builder fields it fills in. -/
structure LayoutResult where
  table : List FileEntry
  totalSectors : Nat
  pathTableLBAs : PathTableLBAs
  pvdPathTableLData : List Nat
  pvdPathTableMData : List Nat
  svdPathTableLData : List Nat
  svdPathTableMData : List Nat
  pvdRootDirExtentSize : Nat
  svdRootDirExtentSize : Nat
  deriving Repr, DecidableEq

/-- `calculateLayout`: names and DR sizes, directory extent sizes, the
fixed prefix (16 system sectors + PVD + SVD + Terminator), path-table
LBAs, content LBAs, total sector count (`uint32` increment) and the
pre-generated path-table buffers.  (`pregeneratePathTables` also
re-checks the four buffer lengths against `calculatePathTableTotalBytes`
and fails the build on mismatch; the comparison inputs are both included
in this result.) -/
def calculateLayout (t : List FileEntry) : LayoutResult :=
  let t1 := assignSanitizedNamesAndDrSizes t
  let t2 := calculateAllDirectoryExtentSizes t1
  let startLBA := SystemAreaNumSectors + 3
  let pt := determinePathTableLBAs t2 startLBA
  let contentResult := assignContentLBAs t2 pt.nextLBA
  { table := contentResult.1
    totalSectors := (contentResult.2 + 1) % 4294967296
    pathTableLBAs := pt
    pvdPathTableLData := createPathTable contentResult.1 false false
    pvdPathTableMData := createPathTable contentResult.1 false true
    svdPathTableLData := createPathTable contentResult.1 true false
    svdPathTableMData := createPathTable contentResult.1 true true
    pvdRootDirExtentSize := (getEntryD t2 0).iso9660Size
    svdRootDirExtentSize := (getEntryD t2 0).jolietSize }

/-! ### Directory listings (`constants.go`: `createDirectoryListing`) -/

/-- The per-record name of a child in a directory listing: the child's
namespace-specific sanitised name (the same selection is made in both the
directory and the file branch of the Go loop). -/
def childRecordName (isJoliet : Bool) (e : FileEntry) : String :=
  if isJoliet then e.jolietName else e.iso9660Name

/-- The children of a directory in listing order: looked up in the entry
table and sorted by `sort.Slice` with Go string comparison of the
namespace names. -/
def sortedChildren (t : List FileEntry) (dirEntryIndex : Nat) (isJoliet : Bool) :
    List FileEntry :=
  sortLe
    (fun a b => !(goStrLt (childRecordName isJoliet b) (childRecordName isJoliet a)))
    ((getEntryD t dirEntryIndex).children.map (getEntryD t))

/-- The extent LBA and extent/data length a child's directory record
carries: for directories the namespace-specific pair, for files the
shared pair (`childEntry.iso9660Sector`, `childEntry.iso9660Size`) in
both namespaces. -/
def childLBASize (isJoliet : Bool) (childEntry : FileEntry) : Nat × Nat :=
  if childEntry.isDir then
    if isJoliet then (childEntry.jolietSector, childEntry.jolietSize)
    else (childEntry.iso9660Sector, childEntry.iso9660Size)
  else (childEntry.iso9660Sector, childEntry.iso9660Size)

/-- `createDirectoryListing`: the Directory Records of one directory's
listing, in emission order — `.`, `..`, then the sorted children.  The
writer concatenates exactly these records into the extent buffer.
`clock` supplies each entity's 7 recorded-time bytes (from `os.Stat`, an
out-of-scope external input).  The `log.Panicf` length cross-checks
against `calculateDirectoryRecordSize` abort the Go program when they
fail and do not alter the emitted bytes. -/
def createDirectoryListing (clock : FileEntry → List Nat) (t : List FileEntry)
    (dirEntryIndex : Nat) (isJoliet : Bool) : List (List Nat) :=
  let currentDir := getEntryD t dirEntryIndex
  let selfPair :=
    if isJoliet then (currentDir.jolietSector, currentDir.jolietSize)
    else (currentDir.iso9660Sector, currentDir.iso9660Size)
  let dotDR :=
    createDirectoryRecordBytes (clock currentDir) selfPair.1 selfPair.2 "." currentDir
      isJoliet
  let parentDir := getEntryD t currentDir.parentIndex
  let parentPair :=
    if isJoliet then (parentDir.jolietSector, parentDir.jolietSize)
    else (parentDir.iso9660Sector, parentDir.iso9660Size)
  let dotDotDR :=
    createDirectoryRecordBytes (clock parentDir) parentPair.1 parentPair.2 ".." parentDir
      isJoliet
  let childDRs := (sortedChildren t dirEntryIndex isJoliet).map fun childEntry =>
    let pair := childLBASize isJoliet childEntry
    createDirectoryRecordBytes (clock childEntry) pair.1 pair.2
      (childRecordName isJoliet childEntry) childEntry isJoliet
  dotDR :: dotDotDR :: childDRs

/-- The identifier bytes of the child records of a listing, in emission
order (each child record of `createDirectoryListing` embeds exactly
these bytes at offset 33). -/
def listingChildIdentifiers (t : List FileEntry) (dirEntryIndex : Nat)
    (isJoliet : Bool) : List (List Nat) :=
  (sortedChildren t dirEntryIndex isJoliet).map fun childEntry =>
    getDRIdentifierBytes (childRecordName isJoliet childEntry) isJoliet false

/-! ### Hidden-marking helper (`builder.go`: `MarkFileNamesAsHidden`) -/

/-- The inner loop of `MarkFileNamesAsHidden` for one (already vetted)
name: set `isHidden` on every entry whose `originalName` matches, except
the root's internal `"\x00"` placeholder at index 0. -/
def markHiddenInner (t : List FileEntry) (name : String) : List FileEntry :=
  (List.range t.length).foldl
    (fun acc i =>
      if i == 0 && (getEntryD acc i).originalName == "\x00" then acc
      else if (getEntryD acc i).originalName == name then
        acc.set i { getEntryD acc i with isHidden := true }
      else acc)
    t

/-- One iteration of the outer loop of `MarkFileNamesAsHidden`: empty
names, `"."`, `".."` and the root's own original name are skipped (with a
non-fatal diagnostic, not modelled; the collected warning summary only
affects the returned error string). -/
def markHiddenOne (t : List FileEntry) (name : String) : List FileEntry :=
  if name == "" then t
  else if name == "." || name == ".." then t
  else if (getEntryD t 0).originalName == name then t
  else markHiddenInner t name

/-- `MarkFileNamesAsHidden` (table mutation only; the returned error
summarises skipped or unmatched names and is independent of the table). -/
def MarkFileNamesAsHidden (t : List FileEntry) (fileNamesToHide : List String) :
    List FileEntry :=
  fileNamesToHide.foldl markHiddenOne t

/-- Forget the `isHidden` flag of an entry (used to state that the layout
planner neither reads nor writes it). -/
def eraseHidden (e : FileEntry) : FileEntry := { e with isHidden := false }

/-- A `LayoutResult` with the `isHidden` flags forgotten. -/
def eraseHiddenLayout (r : LayoutResult) : LayoutResult :=
  { r with table := r.table.map eraseHidden }

/-! ### Auxiliary definitions used by the theorems -/

/-- Lexicographic order on (parent path-table number, identifier bytes)
pairs: the M-type path-table sort key of the specification. -/
def pairLt (p q : Nat × List Nat) : Bool :=
  if p.1 == q.1 then bytesLt p.2 q.2 else decide (p.1 < q.1)

/-- The M-type sort key of a path-table record: the parent lookup made by
the comparator, together with the identifier bytes. -/
def ptSortKey (t : List FileEntry) (isJoliet : Bool) (e : FileEntry) :
    Nat × List Nat :=
  ((getEntryD t e.parentIndex).pathTableDirNum, ptIdentBytes isJoliet e)

/-- A scalar value outside the Basic Multilingual Plane (U+10000). -/
def astralChar : Char := Char.ofNat 65536

/-- A 65-scalar name whose scalars all lie outside the BMP. -/
def longAstralName : String := String.mk (List.replicate 65 astralChar)

/-- Source tree of the C5 counterexample: two sibling files named with
the single scalars U+E000 (BMP private use) and U+10000 (astral). -/
def c5Tree : FSForest :=
  .cons (.file (String.mk [Char.ofNat 57344]) 1)
    (.cons (.file (String.mk [astralChar]) 1) .nil)

/-- The planned entity table of the C5 counterexample. -/
def c5Table : List FileEntry := (calculateLayout (ScanSourceDirectory c5Tree)).table

/-- Source tree used by several witnesses: two directories and two files
with plain ASCII names. -/
def witnessTree : FSForest :=
  .cons (.dir "zeta" (.cons (.file "inner.txt" 10) .nil))
    (.cons (.dir "alpha" .nil)
      (.cons (.file "hello.txt" 5)
        (.cons (.file "b.txt" 0) .nil)))

/-- The scanned table of `witnessTree`. -/
def witnessScan : List FileEntry := ScanSourceDirectory witnessTree

/-- The planned entity table of `witnessTree`. -/
def witnessTable : List FileEntry := (calculateLayout witnessScan).table

/-! ### Lemmas about the byte-wise order and the sort model -/

theorem bytesLt_asymm : ∀ {x y : List Nat}, bytesLt x y = true → bytesLt y x = false
  | [], [], h => by simp [bytesLt] at h
  | [], _ :: _, _ => by simp [bytesLt]
  | _ :: _, [], h => by simp [bytesLt] at h
  | a :: as, b :: bs, h => by
    simp only [bytesLt] at h ⊢
    rcases Nat.lt_trichotomy a b with hab | hab | hab
    · simp [hab, Nat.not_lt.mpr (Nat.le_of_lt hab), Nat.lt_irrefl]
    · subst hab
      simp only [Nat.lt_irrefl, if_false] at h ⊢
      exact bytesLt_asymm h
    · simp [hab, Nat.not_lt.mpr (Nat.le_of_lt hab)] at h

theorem bytesLt_trans : ∀ {x y z : List Nat},
    bytesLt x y = true → bytesLt y z = true → bytesLt x z = true
  | [], [], _, h, _ => by simp [bytesLt] at h
  | [], _ :: _, [], _, h => by simp [bytesLt] at h
  | [], _ :: _, _ :: _, _, _ => by simp [bytesLt]
  | _ :: _, [], _, h, _ => by simp [bytesLt] at h
  | _ :: _, _ :: _, [], _, h => by simp [bytesLt] at h
  | a :: as, b :: bs, c :: cs, h1, h2 => by
    simp only [bytesLt] at h1 h2 ⊢
    rcases Nat.lt_trichotomy a b with hab | hab | hab
    · rcases Nat.lt_trichotomy b c with hbc | hbc | hbc
      · simp [Nat.lt_trans hab hbc]
      · subst hbc; simp [hab]
      · rcases Nat.lt_trichotomy a c with hac | hac | hac
        · simp [hac]
        · subst hac; simp [hbc, Nat.not_lt.mpr (Nat.le_of_lt hbc)] at h2
        · simp [hbc, Nat.not_lt.mpr (Nat.le_of_lt hbc)] at h2
    · subst hab
      rcases Nat.lt_trichotomy a c with hac | hac | hac
      · simp [hac]
      · subst hac
        simp only [Nat.lt_irrefl, if_false] at h1 h2 ⊢
        exact bytesLt_trans h1 h2
      · simp [hac, Nat.not_lt.mpr (Nat.le_of_lt hac)] at h2
    · simp [hab, Nat.not_lt.mpr (Nat.le_of_lt hab)] at h1

theorem bytesLt_eq_of_not : ∀ {x y : List Nat},
    bytesLt x y = false → bytesLt y x = false → x = y
  | [], [], _, _ => rfl
  | [], _ :: _, h, _ => by simp [bytesLt] at h
  | _ :: _, [], _, h => by simp [bytesLt] at h
  | a :: as, b :: bs, h1, h2 => by
    simp only [bytesLt] at h1 h2
    rcases Nat.lt_trichotomy a b with hab | hab | hab
    · simp [hab] at h1
    · subst hab
      simp only [Nat.lt_irrefl, if_false] at h1 h2
      rw [bytesLt_eq_of_not h1 h2]
    · simp [hab, Nat.not_lt.mpr (Nat.le_of_lt hab)] at h2

theorem pairLt_asymm {x y : Nat × List Nat} (h : pairLt x y = true) :
    pairLt y x = false := by
  rcases x with ⟨p, xs⟩; rcases y with ⟨q, ys⟩
  simp only [pairLt] at h ⊢
  by_cases hpq : p = q
  · subst hpq
    simp only [beq_self_eq_true, if_true] at h ⊢
    exact bytesLt_asymm h
  · simp only [beq_iff_eq] at h ⊢
    rw [if_neg hpq] at h
    rw [if_neg (Ne.symm hpq)]
    simp only [decide_eq_true_eq] at h
    simp only [decide_eq_false_iff_not]
    omega

theorem pairLt_trans {x y z : Nat × List Nat} (h1 : pairLt x y = true)
    (h2 : pairLt y z = true) : pairLt x z = true := by
  rcases x with ⟨p, xs⟩; rcases y with ⟨q, ys⟩; rcases z with ⟨r, zs⟩
  simp only [pairLt] at h1 h2 ⊢
  by_cases hpq : p = q <;> by_cases hqr : q = r
  · subst hpq; subst hqr
    simp only [beq_self_eq_true, if_true] at h1 h2 ⊢
    exact bytesLt_trans h1 h2
  · subst hpq
    simp only [beq_iff_eq] at h2 ⊢
    rw [if_neg hqr] at h2
    rw [if_neg hqr]
    exact h2
  · subst hqr
    simp only [beq_iff_eq] at h1 ⊢
    rw [if_neg hpq] at h1
    rw [if_neg hpq]
    exact h1
  · simp only [beq_iff_eq] at h1 h2 ⊢
    rw [if_neg hpq] at h1
    rw [if_neg hqr] at h2
    simp only [decide_eq_true_eq] at h1 h2
    have hpr : p ≠ r := by omega
    rw [if_neg hpr]
    simp only [decide_eq_true_eq]
    omega

theorem pairLt_eq_of_not {x y : Nat × List Nat} (h1 : pairLt x y = false)
    (h2 : pairLt y x = false) : x = y := by
  rcases x with ⟨p, xs⟩; rcases y with ⟨q, ys⟩
  simp only [pairLt] at h1 h2
  by_cases hpq : p = q
  · subst hpq
    simp only [beq_self_eq_true, if_true] at h1 h2
    rw [bytesLt_eq_of_not h1 h2]
  · simp only [beq_iff_eq] at h1 h2
    rw [if_neg hpq] at h1
    rw [if_neg (Ne.symm hpq)] at h2
    simp only [decide_eq_false_iff_not] at h1 h2
    omega

theorem mem_insertLe {α : Type} (le : α → α → Bool) (a x : α) :
    ∀ l : List α, x ∈ insertLe le a l ↔ x = a ∨ x ∈ l
  | [] => by simp [insertLe]
  | b :: bs => by
    simp only [insertLe]
    cases hab : le a b
    · simp only [Bool.false_eq_true, if_false, List.mem_cons, mem_insertLe le a x bs]
      tauto
    · simp only [if_true, List.mem_cons]

theorem mem_sortLe {α : Type} (le : α → α → Bool) (x : α) :
    ∀ l : List α, x ∈ sortLe le l ↔ x ∈ l
  | [] => by simp [sortLe]
  | a :: as => by
    simp only [sortLe, mem_insertLe, mem_sortLe le x as, List.mem_cons]

theorem pairwise_insertLe {α : Type} (le : α → α → Bool)
    (hTot : ∀ a b, le a b = true ∨ le b a = true)
    (hTr : ∀ a b c, le a b = true → le b c = true → le a c = true)
    (a : α) :
    ∀ l : List α, l.Pairwise (fun x y => le x y = true) →
      (insertLe le a l).Pairwise (fun x y => le x y = true)
  | [], _ => by simp [insertLe]
  | b :: bs, h => by
    rcases List.pairwise_cons.mp h with ⟨hb, hbs⟩
    simp only [insertLe]
    cases hab : le a b
    · have hba : le b a = true := (hTot a b).resolve_left (by simp [hab])
      simp only [Bool.false_eq_true, if_false]
      refine List.pairwise_cons.mpr ⟨?_, pairwise_insertLe le hTot hTr a bs hbs⟩
      intro x hx
      rcases (mem_insertLe le a x bs).mp hx with rfl | hx
      · exact hba
      · exact hb x hx
    · simp only [if_true]
      refine List.pairwise_cons.mpr ⟨?_, h⟩
      intro x hx
      rcases List.mem_cons.mp hx with rfl | hx
      · exact hab
      · exact hTr a b x hab (hb x hx)

theorem pairwise_sortLe {α : Type} (le : α → α → Bool)
    (hTot : ∀ a b, le a b = true ∨ le b a = true)
    (hTr : ∀ a b c, le a b = true → le b c = true → le a c = true) :
    ∀ l : List α, (sortLe le l).Pairwise (fun x y => le x y = true)
  | [] => by simp [sortLe]
  | a :: as => pairwise_insertLe le hTot hTr a (sortLe le as)
      (pairwise_sortLe le hTot hTr as)

/-- Sortedness for a comparator `!(kLt (key b) (key a))` derived from a
strict total order `kLt` on the sort keys: the standard situation of
`sort.Slice(xs, less)` with `less i j = kLt (key xs[i]) (key xs[j])`. -/
theorem pairwise_sortLe_keyed {α κ : Type} (key : α → κ) (kLt : κ → κ → Bool)
    (hAsymm : ∀ x y, kLt x y = true → kLt y x = false)
    (hTrans : ∀ x y z, kLt x y = true → kLt y z = true → kLt x z = true)
    (hConn : ∀ x y, kLt x y = false → kLt y x = false → x = y)
    (l : List α) :
    (sortLe (fun a b => !(kLt (key b) (key a))) l).Pairwise
      (fun a b => kLt (key b) (key a) = false) := by
  have hTot : ∀ a b : α, (!(kLt (key b) (key a))) = true ∨ (!(kLt (key a) (key b))) = true := by
    intro a b
    by_cases h : kLt (key b) (key a) = true
    · right; simp [hAsymm _ _ h]
    · left; simp only [Bool.not_eq_true', Bool.not_eq_true] at h ⊢; exact h
  have hTr : ∀ a b c : α, (!(kLt (key b) (key a))) = true →
      (!(kLt (key c) (key b))) = true → (!(kLt (key c) (key a))) = true := by
    intro a b c h1 h2
    simp only [Bool.not_eq_true'] at h1 h2 ⊢
    by_cases h : kLt (key c) (key a) = true
    · by_cases hab : kLt (key a) (key b) = true
      · have := hTrans _ _ _ h hab
        rw [this] at h2; cases h2
      · have : key a = key b := hConn _ _ (Bool.not_eq_true _ ▸ hab) h1
        rw [← this] at h2; rw [h2] at h; cases h
    · simp only [Bool.not_eq_true] at h; exact h
  have := pairwise_sortLe (fun a b => !(kLt (key b) (key a))) hTot hTr l
  exact this.imp (by intro a b h; simpa using h)

/-- `sortLe` only looks at the comparator's values. -/
theorem insertLe_congr {α : Type} (le le' : α → α → Bool)
    (h : ∀ a b, le a b = le' a b) (a : α) :
    ∀ l : List α, insertLe le a l = insertLe le' a l
  | [] => rfl
  | b :: bs => by
    simp only [insertLe, h a b, insertLe_congr le le' h a bs]

theorem sortLe_congr {α : Type} (le le' : α → α → Bool)
    (h : ∀ a b, le a b = le' a b) :
    ∀ l : List α, sortLe le l = sortLe le' l
  | [] => rfl
  | a :: as => by
    simp only [sortLe, sortLe_congr le le' h as, insertLe_congr le le' h a]

/-- A mapped sort with a comparator that factors through the map. -/
theorem insertLe_map {α β : Type} (f : α → β) (le : β → β → Bool) (le' : α → α → Bool)
    (h : ∀ a b, le (f a) (f b) = le' a b) (a : α) :
    ∀ l : List α, insertLe le (f a) (l.map f) = (insertLe le' a l).map f
  | [] => rfl
  | b :: bs => by
    simp only [List.map_cons, insertLe, h a b]
    cases le' a b
    · simp only [Bool.false_eq_true, if_false, List.map_cons,
        insertLe_map f le le' h a bs]
    · simp [List.map_cons]

theorem sortLe_map {α β : Type} (f : α → β) (le : β → β → Bool) (le' : α → α → Bool)
    (h : ∀ a b, le (f a) (f b) = le' a b) :
    ∀ l : List α, sortLe le (l.map f) = (sortLe le' l).map f
  | [] => rfl
  | a :: as => by
    simp only [List.map_cons, sortLe, sortLe_map f le le' h as,
      insertLe_map f le le' h a]

/-! ### C1: the primary identifier of `"a.b.c"` keeps two dots -/

/-- C1 (code bug, failing input): the claim says the primary identifier
(before the `";1"` version suffix) contains at most one `'.'`, and that
`"a.b.c"` in particular yields exactly one dot.  The code keeps every dot
of the base part (`allowDot` is true for the file base) and only re-splits
on a dot when the extension came out empty, so `sanitizeISO9660Name
"a.b.c" false` evaluates to `"A.B.C"`, which contains two dots — contrary
to the claim, to ECMA-119 Level 1, and to the function's own documentation
("converts a name to be ISO9660 Level 1 compliant … 8.3 for files"). -/
theorem sanitizeISO9660Name_two_dots_on_a_b_c :
    sanitizeISO9660Name "a.b.c" false = "A.B.C" ∧
      (("A.B.C").data.filter fun c => c == '.').length = 2 := by
  constructor
  · rfl
  · rfl

/-! ### C8: file extent allocation overflows for sizes just under 4 GiB -/

/-- C8 (code bug, failing input): the claim says every file is allocated
`max 1 (ceil (size / 2048))` sectors.  For a file of
`4294965249 = 2^32 - 2047` bytes (less than the spec's 4 GiB − 1 ceiling,
hence in scope) the `uint32` addition `fileDataSizeBytes + SectorSize - 1`
wraps to zero, so `sectorsToContainFileBytes` allocates 0 sectors instead
of the 2097152 the claim requires. -/
theorem sectorsToContainFileBytes_overflow :
    sectorsToContainFileBytes 4294965249 = 0 ∧
      max 1 ((4294965249 + (SectorSize - 1)) / SectorSize) = 2097152 ∧
      sectorsToContainFileBytes 4294965249 ≠
        max 1 ((4294965249 + (SectorSize - 1)) / SectorSize) := by
  refine ⟨rfl, rfl, ?_⟩
  decide

/-! ### C10: the scanner stores file sizes reduced modulo 2^32 -/

/-- Source tree containing a single regular file of `2^32 + 5` bytes. -/
def bigFileTree : FSForest := .cons (.file "big" 4294967301) .nil

/-- C10 (confirmed): the scanner stores `uint32(fileInfo.Size())`, so a
file of `2^32 + 5` bytes is recorded with extent size `5 = (2^32 + 5) %
2^32` in both namespaces, the entry is appended to the table, and the
scan completes without any error (the model is total: the Go scan only
fails on I/O errors and has no size check). -/
theorem scan_stores_size_mod_2_32 :
    (ScanSourceDirectory bigFileTree).length = 2 ∧
      (getEntryD (ScanSourceDirectory bigFileTree) 1).iso9660Size = 4294967301 % 4294967296 ∧
      (getEntryD (ScanSourceDirectory bigFileTree) 1).iso9660Size = 5 ∧
      (getEntryD (ScanSourceDirectory bigFileTree) 1).jolietSize = 5 ∧
      4294967296 ≤ 4294967301 := by
  refine ⟨rfl, rfl, rfl, rfl, by decide⟩

/-! ### C6: the file-flags byte -/

/-- C6 (confirmed): in every populated directory record, bit 1 of the
file-flags byte is set iff the described entity is a directory, and bit 0
is set iff the entity is marked hidden *and* the encoded identifier names
the entity itself, i.e. is none of `"."`, `".."`, `""` and the root
sentinel `"\x00"`.  In particular the `"."`/`".."` records of a directory
containing a hidden entity never carry the hidden bit. -/
theorem populateDirectoryRecordFields_fileFlags (recTime : List Nat)
    (extentLBA extentOrDataSize : Nat) (drIDNameToEncode : String)
    (targetEntry : FileEntry) :
    ((populateDirectoryRecordFields recTime extentLBA extentOrDataSize
        drIDNameToEncode targetEntry).FileFlags.testBit 1 = targetEntry.isDir) ∧
    ((populateDirectoryRecordFields recTime extentLBA extentOrDataSize
        drIDNameToEncode targetEntry).FileFlags.testBit 0 =
      (targetEntry.isHidden
        && (!(drIDNameToEncode == ".") && !(drIDNameToEncode == "..")
            && !(drIDNameToEncode == "") && !(drIDNameToEncode == "\x00")))) := by
  simp only [populateDirectoryRecordFields]
  rcases hd : targetEntry.isDir <;> rcases hh : targetEntry.isHidden <;>
    rcases h1 : drIDNameToEncode == "." <;> rcases h2 : drIDNameToEncode == ".." <;>
    rcases h3 : drIDNameToEncode == "" <;> rcases h4 : drIDNameToEncode == "\x00" <;>
    simp [h1, h2, h3, h4] <;> decide

/-! ### C2: Joliet truncation counts scalars, not UCS-2 code units -/

theorem utf16Units_bmp {c : Char} (h : c.toNat < 65536) : utf16Units c = [c.toNat] := by
  simp [utf16Units, h]

theorem length_flatMap_bePair (l : List Nat) :
    (l.flatMap (fun u => [u / 256 % 256, u % 256])).length = 2 * l.length := by
  induction l with
  | nil => rfl
  | cons a as ih =>
    simp only [List.flatMap_cons, List.length_append, List.length_cons,
      List.length_nil, ih]
    omega

theorem length_utf16_of_bmp (l : List Char) (h : ∀ c ∈ l, c.toNat < 65536) :
    (l.flatMap utf16Units).length = l.length := by
  induction l with
  | nil => rfl
  | cons a as ih =>
    rw [List.flatMap_cons, utf16Units_bmp (h a (List.mem_cons_self a as))]
    simp only [List.length_append, List.length_cons, List.length_nil]
    rw [ih (fun c hc => h c (List.mem_cons_of_mem a hc))]
    omega

/-- C2 (counterexample): the claim bounds the UCS-2BE encoding of every
truncated Joliet identifier by 128 bytes.  A 65-scalar name consisting of
astral (non-BMP) scalars is not a sentinel, yet after truncation — which
counts *runes* (`[]rune(originalName)`), not UCS-2 code units — the 64
remaining astral scalars encode to 128 surrogate code units, i.e. 256
bytes. -/
theorem truncateJolietName_ucs2_overflow :
    longAstralName ≠ "\x00" ∧ longAstralName ≠ "." ∧ longAstralName ≠ ".." ∧
      (truncateJolietName longAstralName).data.length = 64 ∧
      (encodeUTF16BE (truncateJolietName longAstralName)).length = 256 := by
  refine ⟨by decide, by decide, by decide, rfl, rfl⟩

/-- C2 (amended): for every non-sentinel name, the Joliet identifier is
the original truncated to at most 64 Unicode scalar values (so names of
at most 64 scalars pass through unchanged: the `take` leaves their data
intact, and `String`s with equal data are equal); and *when every scalar
of the name lies in the BMP* — the only case the spec keeps in scope —
each scalar is a single UCS-2 code unit, so the UCS-2BE encoding is at
most 128 bytes. -/
theorem truncateJolietName_amended (s : String)
    (h0 : s ≠ "\x00") (h1 : s ≠ ".") (h2 : s ≠ "..")
    (hBMP : ∀ c ∈ s.data, c.toNat < 65536) :
    (truncateJolietName s).data = s.data.take JolietMaxFilenameChars ∧
      (truncateJolietName s).data.length ≤ JolietMaxFilenameChars ∧
      (encodeUTF16BE (truncateJolietName s)).length ≤ 128 := by
  have hsent : (s == "\x00" || s == "." || s == "..") = false := by
    simp [h0, h1, h2]
  have hdata : (truncateJolietName s).data = s.data.take JolietMaxFilenameChars := by
    unfold truncateJolietName
    rw [hsent]
    simp only [Bool.false_eq_true, if_false]
    by_cases hlen : s.data.length > JolietMaxFilenameChars
    · rw [if_pos hlen]
    · rw [if_neg hlen]
      exact (List.take_of_length_le (Nat.le_of_not_lt hlen)).symm
  refine ⟨hdata, ?_, ?_⟩
  · rw [hdata]
    exact List.length_take_le _ _
  · have hmem : ∀ c ∈ (truncateJolietName s).data, c.toNat < 65536 := by
      intro c hc
      rw [hdata] at hc
      exact hBMP c (List.mem_of_mem_take hc)
    rw [encodeUTF16BE, length_flatMap_bePair, length_utf16_of_bmp _ hmem, hdata]
    have := List.length_take_le JolietMaxFilenameChars s.data
    have h64 : JolietMaxFilenameChars = 64 := rfl
    omega

/-- Witness for `truncateJolietName_amended` at a 70-scalar ASCII name. -/
theorem truncateJolietName_amended_witness :
    (truncateJolietName (String.mk (List.replicate 70 'A'))).data
        = (String.mk (List.replicate 70 'A')).data.take JolietMaxFilenameChars ∧
      (truncateJolietName (String.mk (List.replicate 70 'A'))).data.length
        ≤ JolietMaxFilenameChars ∧
      (encodeUTF16BE (truncateJolietName (String.mk (List.replicate 70 'A')))).length
        ≤ 128 :=
  truncateJolietName_amended (String.mk (List.replicate 70 'A'))
    (by decide) (by decide) (by decide) (by decide)

/-! ### C4: marshalled directory-record length -/

theorem length_pad7 (l : List Nat) : (pad7 l).length = 7 := by
  simp only [pad7, List.length_append, List.length_take, List.length_replicate]
  omega

theorem marshalDirectoryRecord_length (fields : DirectoryRecordFields)
    (identifier : List Nat) :
    (marshalDirectoryRecord fields identifier).length =
      (if (drFixedPartSize + identifier.length % 256) % 2 ≠ 0 then
        drFixedPartSize + identifier.length % 256 + 1
       else drFixedPartSize + identifier.length % 256) := by
  simp only [marshalDirectoryRecord, drFixedPartSize, le32, be32, le16, be16,
    List.length_append, List.length_cons, List.length_take, List.length_replicate,
    List.length_nil, length_pad7]
  split <;> omega

theorem marshalDirectoryRecord_head (fields : DirectoryRecordFields)
    (identifier : List Nat) :
    (marshalDirectoryRecord fields identifier).head? =
      some ((if (drFixedPartSize + identifier.length % 256) % 2 ≠ 0 then
        drFixedPartSize + identifier.length % 256 + 1
       else drFixedPartSize + identifier.length % 256) % 256) := by
  simp only [marshalDirectoryRecord, List.cons_append, List.head?_cons]

/-- C4 (amended): for every identifier of at most 221 bytes — which
covers every identifier this writer can emit, the longest being a
128-byte Joliet name — the marshalled directory record has length exactly
`33 + len(identifier)` rounded up to the next even number, that length
equals the pre-computed `calculateDirectoryRecordSize` (the value stored
in `actualISO9660DrSize`/`actualJolietDrSize` and used to size the
parent's extent), and the record's first byte equals that length.  (For
longer identifiers the two `byte` truncations in the marshaller break the
first-byte equation — and, from 256 bytes of identifier on, the length
equation too — which is what forces the bound.) -/
theorem marshalDirectoryRecord_amended (fields : DirectoryRecordFields)
    (identifier : List Nat) (h : identifier.length ≤ 221) :
    (marshalDirectoryRecord fields identifier).length =
        calculateDirectoryRecordSize identifier ∧
      (marshalDirectoryRecord fields identifier).head? =
        some (calculateDirectoryRecordSize identifier) ∧
      calculateDirectoryRecordSize identifier =
        (if (drFixedPartSize + identifier.length) % 2 ≠ 0 then
          drFixedPartSize + identifier.length + 1
         else drFixedPartSize + identifier.length) := by
  have hmod : identifier.length % 256 = identifier.length :=
    Nat.mod_eq_of_lt (by omega)
  have hsize : calculateDirectoryRecordSize identifier =
      (if (drFixedPartSize + identifier.length) % 2 ≠ 0 then
        drFixedPartSize + identifier.length + 1
       else drFixedPartSize + identifier.length) := rfl
  refine ⟨?_, ?_, hsize⟩
  · rw [marshalDirectoryRecord_length, hmod, hsize]
  · rw [marshalDirectoryRecord_head, hmod, hsize]
    have h33 : drFixedPartSize = 33 := rfl
    rw [h33]
    split <;> rw [Nat.mod_eq_of_lt (by omega)]

/-- Witness for `marshalDirectoryRecord_amended` at the identifier
`[65, 66, 67]` with zeroed fields. -/
theorem marshalDirectoryRecord_amended_witness :
    (marshalDirectoryRecord {} [65, 66, 67]).length =
        calculateDirectoryRecordSize [65, 66, 67] ∧
      (marshalDirectoryRecord {} [65, 66, 67]).head? =
        some (calculateDirectoryRecordSize [65, 66, 67]) ∧
      calculateDirectoryRecordSize [65, 66, 67] =
        (if (drFixedPartSize + ([65, 66, 67] : List Nat).length) % 2 ≠ 0 then
          drFixedPartSize + ([65, 66, 67] : List Nat).length + 1
         else drFixedPartSize + ([65, 66, 67] : List Nat).length) :=
  marshalDirectoryRecord_amended {} [65, 66, 67] (by decide)

/-- C4 (counterexample): at an identifier of 222 bytes the marshalled
record is 256 bytes long — `33 + 222` rounded up to even — but its first
byte is `byte(256) = 0`, not the record length, falsifying the claim's
"its first byte equals that length" for arbitrary identifier byte
strings. -/
theorem marshalDirectoryRecord_first_byte_truncates :
    (marshalDirectoryRecord {} (List.replicate 222 0)).length = 256 ∧
      calculateDirectoryRecordSize (List.replicate 222 0) = 256 ∧
      (marshalDirectoryRecord {} (List.replicate 222 0)).head? = some 0 ∧
      (marshalDirectoryRecord {} (List.replicate 222 0)).head? ≠
        some (calculateDirectoryRecordSize (List.replicate 222 0)) := by
  refine ⟨by decide, by decide, by decide, by decide⟩

/-! ### C5: listing children are sorted by Go string order of the names -/

/-- For a non-root record, the Joliet identifier bytes are always the
UCS-2BE encoding of the name (the `"."`/`".."` branches return the same
encoding of the same literal). -/
theorem getDRIdentifierBytes_joliet_nonroot (name : String) :
    getDRIdentifierBytes name true false = encodeUTF16BE name := by
  by_cases h1 : name = "."
  · subst h1; rfl
  · by_cases h2 : name = ".."
    · subst h2; rfl
    · simp [getDRIdentifierBytes, h1, h2]

/-- For a non-root record whose name is neither `"."` nor `".."`, the
primary identifier bytes are the raw bytes of the name. -/
theorem getDRIdentifierBytes_primary_nonroot (name : String)
    (h1 : name ≠ ".") (h2 : name ≠ "..") :
    getDRIdentifierBytes name false false = strBytes name := by
  simp [getDRIdentifierBytes, h1, h2]

theorem utf8Bytes_ascii {c : Char} (h : c.toNat < 128) : utf8Bytes c = [c.toNat] := by
  simp [utf8Bytes, h]

theorem flatMap_utf8_ascii (l : List Char) (h : ∀ c ∈ l, c.toNat < 128) :
    l.flatMap utf8Bytes = l.map Char.toNat := by
  induction l with
  | nil => rfl
  | cons a as ih =>
    rw [List.flatMap_cons, utf8Bytes_ascii (h a (List.mem_cons_self a as)),
      List.map_cons, ih (fun c hc => h c (List.mem_cons_of_mem a hc))]
    rfl

theorem strBytes_ascii (s : String) (h : ∀ c ∈ s.data, c.toNat < 128) :
    strBytes s = s.data.map Char.toNat := by
  rw [strBytes, flatMap_utf8_ascii s.data h]

theorem flatMap_utf16_bmp (l : List Char) (h : ∀ c ∈ l, c.toNat < 65536) :
    l.flatMap utf16Units = l.map Char.toNat := by
  induction l with
  | nil => rfl
  | cons a as ih =>
    rw [List.flatMap_cons, utf16Units_bmp (h a (List.mem_cons_self a as)),
      List.map_cons, ih (fun c hc => h c (List.mem_cons_of_mem a hc))]
    rfl

/-- Big-endian pair encoding preserves the byte-wise order of sequences
of 16-bit values: UCS-2BE byte order is UTF-16 code-unit order. -/
theorem bytesLt_bePairs : ∀ xs ys : List Nat, (∀ u ∈ xs, u < 65536) →
    (∀ u ∈ ys, u < 65536) →
    bytesLt (xs.flatMap fun u => [u / 256 % 256, u % 256])
        (ys.flatMap fun u => [u / 256 % 256, u % 256]) = bytesLt xs ys
  | [], [], _, _ => rfl
  | [], _ :: _, _, _ => rfl
  | _ :: _, [], _, _ => rfl
  | m :: xs, n :: ys, hx, hy => by
    have hm : m < 65536 := hx m (List.mem_cons_self _ _)
    have hn : n < 65536 := hy n (List.mem_cons_self _ _)
    have hmm : m / 256 % 256 = m / 256 := Nat.mod_eq_of_lt (by omega)
    have hnn : n / 256 % 256 = n / 256 := Nat.mod_eq_of_lt (by omega)
    have ih := bytesLt_bePairs xs ys (fun u hu => hx u (List.mem_cons_of_mem _ hu))
      (fun u hu => hy u (List.mem_cons_of_mem _ hu))
    show bytesLt (m / 256 % 256 :: m % 256 :: _) (n / 256 % 256 :: n % 256 :: _) = _
    rw [hmm, hnn]
    simp only [bytesLt]
    have hmeq : m = 256 * (m / 256) + m % 256 := (Nat.div_add_mod m 256).symm ▸ by omega
    split_ifs <;> first | rfl | exact ih | (exfalso; omega)

/-- UCS-2BE byte order of BMP-only strings is Go string order. -/
theorem bytesLt_encodeUTF16BE (a b : String)
    (ha : ∀ c ∈ a.data, c.toNat < 65536) (hb : ∀ c ∈ b.data, c.toNat < 65536) :
    bytesLt (encodeUTF16BE a) (encodeUTF16BE b) = goStrLt a b := by
  rw [encodeUTF16BE, encodeUTF16BE, flatMap_utf16_bmp _ ha, flatMap_utf16_bmp _ hb,
    bytesLt_bePairs _ _ (by simpa using ha) (by simpa using hb), goStrLt]

/-- C5 (amended): in every directory listing, the child records after
`"."` and `".."` appear sorted by Go's byte-wise string comparison of the
namespace name (equivalently, lexicographically by Unicode scalar
values).  Consequently: in a primary listing whose child identifiers are
ASCII and none of `"."`/`".."` — which holds for every sanitised primary
name — the identifier byte strings appear in raw-ASCII byte order; and in
a Joliet listing the UCS-2BE identifier byte strings appear in byte-wise
order *provided* every scalar of every child's Joliet name lies in the
BMP.  (Outside the BMP the UTF-8/scalar order used by the sort disagrees
with UCS-2BE byte order, see the counterexample.) -/
theorem createDirectoryListing_children_sorted (t : List FileEntry)
    (dirEntryIndex : Nat)
    (hASCII : ∀ e ∈ sortedChildren t dirEntryIndex false,
      (∀ c ∈ e.iso9660Name.data, c.toNat < 128) ∧
        e.iso9660Name ≠ "." ∧ e.iso9660Name ≠ "..")
    (hBMP : ∀ e ∈ sortedChildren t dirEntryIndex true,
      ∀ c ∈ e.jolietName.data, c.toNat < 65536) :
    ((sortedChildren t dirEntryIndex false).Pairwise
        (fun a b => goStrLt b.iso9660Name a.iso9660Name = false)) ∧
      ((sortedChildren t dirEntryIndex true).Pairwise
        (fun a b => goStrLt b.jolietName a.jolietName = false)) ∧
      ((listingChildIdentifiers t dirEntryIndex false).Pairwise
        (fun x y => bytesLt y x = false)) ∧
      ((listingChildIdentifiers t dirEntryIndex true).Pairwise
        (fun x y => bytesLt y x = false)) := by
  have hPrim0 := pairwise_sortLe_keyed
    (fun e : FileEntry => e.iso9660Name.data.map Char.toNat) bytesLt
    (fun _ _ h => bytesLt_asymm h) (fun _ _ _ h1 h2 => bytesLt_trans h1 h2)
    (fun _ _ h1 h2 => bytesLt_eq_of_not h1 h2)
    ((getEntryD t dirEntryIndex).children.map (getEntryD t))
  have hJol0 := pairwise_sortLe_keyed
    (fun e : FileEntry => e.jolietName.data.map Char.toNat) bytesLt
    (fun _ _ h => bytesLt_asymm h) (fun _ _ _ h1 h2 => bytesLt_trans h1 h2)
    (fun _ _ h1 h2 => bytesLt_eq_of_not h1 h2)
    ((getEntryD t dirEntryIndex).children.map (getEntryD t))
  have hPrim : (sortedChildren t dirEntryIndex false).Pairwise
      (fun a b => goStrLt b.iso9660Name a.iso9660Name = false) :=
    hPrim0.imp (fun h => h)
  have hJol : (sortedChildren t dirEntryIndex true).Pairwise
      (fun a b => goStrLt b.jolietName a.jolietName = false) :=
    hJol0.imp (fun h => h)
  refine ⟨hPrim, hJol, ?_, ?_⟩
  · rw [listingChildIdentifiers, List.pairwise_map]
    refine hPrim.imp_of_mem ?_
    intro a b ha hb hab
    rcases hASCII a ha with ⟨haA, ha1, ha2⟩
    rcases hASCII b hb with ⟨hbA, hb1, hb2⟩
    show bytesLt (getDRIdentifierBytes (childRecordName false b) false false)
        (getDRIdentifierBytes (childRecordName false a) false false) = false
    simp only [childRecordName, Bool.false_eq_true, if_false]
    rw [getDRIdentifierBytes_primary_nonroot _ hb1 hb2,
      getDRIdentifierBytes_primary_nonroot _ ha1 ha2,
      strBytes_ascii _ hbA, strBytes_ascii _ haA]
    exact hab
  · rw [listingChildIdentifiers, List.pairwise_map]
    refine hJol.imp_of_mem ?_
    intro a b ha hb hab
    show bytesLt (getDRIdentifierBytes (childRecordName true b) true false)
        (getDRIdentifierBytes (childRecordName true a) true false) = false
    simp only [childRecordName, if_true]
    rw [getDRIdentifierBytes_joliet_nonroot, getDRIdentifierBytes_joliet_nonroot,
      bytesLt_encodeUTF16BE _ _ (hBMP b hb) (hBMP a ha)]
    exact hab

/-- Witness for `createDirectoryListing_children_sorted` at the root
directory of the planned `witnessTree` table. -/
theorem createDirectoryListing_children_sorted_witness :
    ((sortedChildren witnessTable 0 false).Pairwise
        (fun a b => goStrLt b.iso9660Name a.iso9660Name = false)) ∧
      ((sortedChildren witnessTable 0 true).Pairwise
        (fun a b => goStrLt b.jolietName a.jolietName = false)) ∧
      ((listingChildIdentifiers witnessTable 0 false).Pairwise
        (fun x y => bytesLt y x = false)) ∧
      ((listingChildIdentifiers witnessTable 0 true).Pairwise
        (fun x y => bytesLt y x = false)) :=
  createDirectoryListing_children_sorted witnessTable 0 (by decide) (by decide)

/-- C5 (counterexample): a Joliet listing whose two children are named
with the single scalars U+E000 and U+10000.  The sort uses Go string
order (scalar order), which puts U+E000 first; but the UCS-2BE identifier
of U+10000 starts with the surrogate byte 0xD8 < 0xE0, so the emitted
identifier sequence is *not* sorted by byte-wise UCS-2BE comparison, as
the claim demands. -/
theorem jolietListing_not_ucs2_sorted :
    listingChildIdentifiers c5Table 0 true = [[224, 0], [216, 0, 220, 0]] ∧
      bytesLt [216, 0, 220, 0] [224, 0] = true ∧
      ¬ (listingChildIdentifiers c5Table 0 true).Pairwise
          (fun x y => bytesLt y x = false) := by
  refine ⟨by decide, by decide, by decide⟩

/-! ### C3: file extents are shared between the namespaces -/

theorem getEntryD_eq_getElem (t : List FileEntry) (j : Nat) (h : j < t.length) :
    getEntryD t j = t[j] := by
  simp [getEntryD, List.getD_eq_getElem?_getD, List.getElem?_eq_getElem h]

theorem getEntryD_set_self (t : List FileEntry) (i : Nat) (e : FileEntry)
    (h : i < t.length) : getEntryD (t.set i e) i = e := by
  simp [getEntryD, List.getD_eq_getElem?_getD, List.getElem?_set, h]

theorem getEntryD_set_ne (t : List FileEntry) (i j : Nat) (e : FileEntry)
    (h : i ≠ j) : getEntryD (t.set i e) j = getEntryD t j := by
  simp [getEntryD, List.getD_eq_getElem?_getD, List.getElem?_set, h]

theorem getEntryD_map_of_lt (g : FileEntry → FileEntry) (t : List FileEntry) (j : Nat)
    (h : j < t.length) : getEntryD (t.map g) j = g (getEntryD t j) := by
  rw [getEntryD_eq_getElem _ _ (by simpa using h), getEntryD_eq_getElem _ _ h]
  simp

/-- Generic invariant for the table-valued layout folds: a step that
never changes an entry satisfying `P` leaves such entries untouched. -/
theorem foldTab_preserves (f : List FileEntry → Nat → List FileEntry)
    (P : FileEntry → Prop)
    (hstep : ∀ t i j, P (getEntryD t j) → getEntryD (f t i) j = getEntryD t j) :
    ∀ (l : List Nat) (t : List FileEntry) (j : Nat),
      P (getEntryD t j) → getEntryD (l.foldl f t) j = getEntryD t j
  | [], _, _, _ => rfl
  | i :: is, t, j, hP => by
    rw [List.foldl_cons]
    rw [foldTab_preserves f P hstep is (f t i) j (by rw [hstep t i j hP]; exact hP)]
    exact hstep t i j hP

/-- The same for the (table, current LBA) folds of `assignContentLBAs`. -/
theorem foldPass_preserves (f : List FileEntry × Nat → Nat → List FileEntry × Nat)
    (P : FileEntry → Prop)
    (hstep : ∀ st i j, P (getEntryD st.1 j) → getEntryD (f st i).1 j = getEntryD st.1 j) :
    ∀ (l : List Nat) (st : List FileEntry × Nat) (j : Nat),
      P (getEntryD st.1 j) → getEntryD (l.foldl f st).1 j = getEntryD st.1 j
  | [], _, _, _ => rfl
  | i :: is, st, j, hP => by
    rw [List.foldl_cons]
    rw [foldPass_preserves f P hstep is (f st i) j (by rw [hstep st i j hP]; exact hP)]
    exact hstep st i j hP

theorem foldPass_length (f : List FileEntry × Nat → Nat → List FileEntry × Nat)
    (hlen : ∀ st i, (f st i).1.length = st.1.length) :
    ∀ (l : List Nat) (st : List FileEntry × Nat),
      (l.foldl f st).1.length = st.1.length
  | [], _ => rfl
  | i :: is, st => by
    rw [List.foldl_cons, foldPass_length f hlen is (f st i), hlen st i]

theorem foldTab_length (f : List FileEntry → Nat → List FileEntry)
    (hlen : ∀ t i, (f t i).length = t.length) :
    ∀ (l : List Nat) (t : List FileEntry), (l.foldl f t).length = t.length
  | [], _ => rfl
  | i :: is, t => by
    rw [List.foldl_cons, foldTab_length f hlen is (f t i), hlen t i]

theorem getEntryD_set (t : List FileEntry) (i : Nat) (e : FileEntry) (j : Nat) :
    getEntryD (t.set i e) j = if i = j ∧ i < t.length then e else getEntryD t j := by
  by_cases hij : i = j
  · subst hij
    by_cases hi : i < t.length
    · rw [getEntryD_set_self _ _ _ hi, if_pos ⟨rfl, hi⟩]
    · rw [if_neg (fun h => hi h.2)]
      simp only [getEntryD, List.getD_eq_getElem?_getD, List.getElem?_set, hi,
        if_true, if_false, ite_self, if_pos rfl]
      rw [List.getElem?_eq_none (Nat.le_of_not_lt hi)]
  · rw [getEntryD_set_ne _ _ _ _ hij, if_neg (fun h => hij h.1)]

/-- `assignNamesEntry` only writes the two names and the two DR sizes. -/
theorem assignNamesEntry_fields (f : FileEntry) :
    (assignNamesEntry f).isDir = f.isDir ∧
      (assignNamesEntry f).iso9660Size = f.iso9660Size ∧
      (assignNamesEntry f).jolietSize = f.jolietSize ∧
      (assignNamesEntry f).iso9660Sector = f.iso9660Sector ∧
      (assignNamesEntry f).jolietSector = f.jolietSector ∧
      (assignNamesEntry f).originalName = f.originalName ∧
      (assignNamesEntry f).isHidden = f.isHidden ∧
      (assignNamesEntry f).parentIndex = f.parentIndex ∧
      (assignNamesEntry f).children = f.children ∧
      (assignNamesEntry f).pathTableDirNum = f.pathTableDirNum := by
  by_cases h1 : f.isDir = true <;> by_cases h2 : f.pathTableDirNum == 1 <;>
    simp [assignNamesEntry, h1, h2]

/-- Regular files are untouched by `calculateAllDirectoryExtentSizes`. -/
theorem calculateAllDirectoryExtentSizes_file (t : List FileEntry) (j : Nat)
    (h : (getEntryD t j).isDir = false) :
    getEntryD (calculateAllDirectoryExtentSizes t) j = getEntryD t j := by
  rw [calculateAllDirectoryExtentSizes]
  refine foldTab_preserves _ (fun e => e.isDir = false) ?_ _ t j h
  intro t' i j' hP
  by_cases hd : (getEntryD t' i).isDir = true
  · rw [if_pos hd, getEntryD_set]
    split
    · rename_i hc
      rw [← hc.1] at hP
      rw [hP] at hd
      cases hd
    · rfl
  · rw [if_neg hd]

/-- Regular files are untouched by the ISO9660 directory-extent pass. -/
theorem assignIsoDirLBAs_file (st : List FileEntry × Nat) (j : Nat)
    (h : (getEntryD st.1 j).isDir = false) :
    getEntryD (assignIsoDirLBAs st).1 j = getEntryD st.1 j := by
  rw [assignIsoDirLBAs]
  refine foldPass_preserves _ (fun e => e.isDir = false) ?_ _ st j h
  intro st' i j' hP
  by_cases hd : (getEntryD st'.1 i).isDir = true
  · rw [if_pos hd]
    show getEntryD (st'.1.set i _) j' = _
    rw [getEntryD_set]
    split
    · rename_i hc
      rw [← hc.1] at hP
      rw [hP] at hd
      cases hd
    · rfl
  · rw [if_neg hd]

/-- Regular files are untouched by the Joliet directory-extent pass. -/
theorem assignJolietDirLBAs_file (st : List FileEntry × Nat) (j : Nat)
    (h : (getEntryD st.1 j).isDir = false) :
    getEntryD (assignJolietDirLBAs st).1 j = getEntryD st.1 j := by
  rw [assignJolietDirLBAs]
  refine foldPass_preserves _ (fun e => e.isDir = false) ?_ _ st j h
  intro st' i j' hP
  by_cases hd : (getEntryD st'.1 i).isDir = true
  · rw [if_pos hd]
    show getEntryD (st'.1.set i _) j' = _
    rw [getEntryD_set]
    split
    · rename_i hc
      rw [← hc.1] at hP
      rw [hP] at hd
      cases hd
    · rfl
  · rw [if_neg hd]

/-- Entries not named by any index in the list are untouched by a fold
whose step only writes the index it is handed. -/
theorem foldPass_untouched (f : List FileEntry × Nat → Nat → List FileEntry × Nat)
    (hstep : ∀ st i j, j ≠ i → getEntryD (f st i).1 j = getEntryD st.1 j) :
    ∀ (l : List Nat) (st : List FileEntry × Nat) (j : Nat), j ∉ l →
      getEntryD (l.foldl f st).1 j = getEntryD st.1 j
  | [], _, _, _ => rfl
  | i :: is, st, j, hj => by
    rw [List.foldl_cons,
      foldPass_untouched f hstep is (f st i) j (fun h => hj (List.mem_cons_of_mem i h)),
      hstep st i j (fun h => hj (h ▸ List.mem_cons_self i is))]

/-- In a fold whose step (a) leaves other indices alone, (b) preserves
the table length and (c) rewrites the entry at its own index — when that
entry is a regular file — to the same entry with both sector fields set
to one common value, every file index in a duplicate-free index list ends
up with equal sector fields. -/
theorem foldPass_sets_both (f : List FileEntry × Nat → Nat → List FileEntry × Nat)
    (hne : ∀ st i j, j ≠ i → getEntryD (f st i).1 j = getEntryD st.1 j)
    (hlen : ∀ st i, (f st i).1.length = st.1.length)
    (hself : ∀ st i, i < st.1.length → (getEntryD st.1 i).isDir = false →
      ∃ s, getEntryD (f st i).1 i =
        { getEntryD st.1 i with iso9660Sector := s, jolietSector := s }) :
    ∀ (l : List Nat), l.Nodup → ∀ (st : List FileEntry × Nat) (j : Nat), j ∈ l →
      (getEntryD st.1 j).isDir = false → j < st.1.length →
      ∃ s, getEntryD (l.foldl f st).1 j =
        { getEntryD st.1 j with iso9660Sector := s, jolietSector := s }
  | [], _, _, _, hj, _, _ => absurd hj (List.not_mem_nil _)
  | i :: is, hnd, st, j, hj, hfile, hlt => by
    rcases List.nodup_cons.mp hnd with ⟨hi, hnd'⟩
    rw [List.foldl_cons]
    rcases List.mem_cons.mp hj with rfl | hj'
    · rcases hself st j hlt hfile with ⟨s, hs⟩
      refine ⟨s, ?_⟩
      rw [foldPass_untouched f hne is (f st j) j hi, hs]
    · have hji : j ≠ i := fun h => hi (h ▸ hj')
      have hunch : getEntryD (f st i).1 j = getEntryD st.1 j := hne st i j hji
      rcases foldPass_sets_both f hne hlen hself is hnd' (f st i) j hj'
          (by rw [hunch]; exact hfile) (by rw [hlen st i]; exact hlt) with ⟨s, hs⟩
      exact ⟨s, by rw [hs, hunch]⟩

/-- The file-data pass gives every regular file one shared LBA stored in
both sector fields. -/
theorem assignFileLBAs_file (st : List FileEntry × Nat) (j : Nat)
    (hfile : (getEntryD st.1 j).isDir = false) (hj : j < st.1.length) :
    ∃ s, getEntryD (assignFileLBAs st).1 j =
      { getEntryD st.1 j with iso9660Sector := s, jolietSector := s } := by
  rw [assignFileLBAs]
  refine foldPass_sets_both _ ?_ ?_ ?_ _ (List.nodup_range _) st j
    (List.mem_range.mpr hj) hfile hj
  · intro st' i j' hji
    by_cases hd : (getEntryD st'.1 i).isDir = true
    · rw [if_pos hd]
    · rw [if_neg hd]
      show getEntryD (st'.1.set i _) j' = _
      rw [getEntryD_set, if_neg (fun h => hji h.1.symm)]
  · intro st' i
    by_cases hd : (getEntryD st'.1 i).isDir = true
    · rw [if_pos hd]
    · rw [if_neg hd]
      exact List.length_set _ _ _
  · intro st' i hi hfile'
    rw [if_neg (by rw [hfile']; exact Bool.false_ne_true)]
    refine ⟨st'.2, ?_⟩
    show getEntryD (st'.1.set i _) i = _
    rw [getEntryD_set, if_pos ⟨rfl, hi⟩]

theorem foldTab_isDir (f : List FileEntry → Nat → List FileEntry)
    (hstep : ∀ t i j, (getEntryD (f t i) j).isDir = (getEntryD t j).isDir) :
    ∀ (l : List Nat) (t : List FileEntry) (j : Nat),
      (getEntryD (l.foldl f t) j).isDir = (getEntryD t j).isDir
  | [], _, _ => rfl
  | i :: is, t, j => by
    rw [List.foldl_cons, foldTab_isDir f hstep is (f t i) j, hstep t i j]

theorem foldPass_isDir (f : List FileEntry × Nat → Nat → List FileEntry × Nat)
    (hstep : ∀ st i j, (getEntryD (f st i).1 j).isDir = (getEntryD st.1 j).isDir) :
    ∀ (l : List Nat) (st : List FileEntry × Nat) (j : Nat),
      (getEntryD (l.foldl f st).1 j).isDir = (getEntryD st.1 j).isDir
  | [], _, _ => rfl
  | i :: is, st, j => by
    rw [List.foldl_cons, foldPass_isDir f hstep is (f st i) j, hstep st i j]

theorem calculateAllDirectoryExtentSizes_isDir (t : List FileEntry) (j : Nat) :
    (getEntryD (calculateAllDirectoryExtentSizes t) j).isDir = (getEntryD t j).isDir := by
  rw [calculateAllDirectoryExtentSizes]
  refine foldTab_isDir _ ?_ _ t j
  intro t' i j'
  by_cases hd : (getEntryD t' i).isDir = true
  · rw [if_pos hd, getEntryD_set]
    split
    · rename_i hc
      rw [← hc.1]
    · rfl
  · rw [if_neg hd]

theorem calculateAllDirectoryExtentSizes_length (t : List FileEntry) :
    (calculateAllDirectoryExtentSizes t).length = t.length := by
  rw [calculateAllDirectoryExtentSizes]
  refine foldTab_length _ ?_ _ t
  intro t' i
  by_cases hd : (getEntryD t' i).isDir = true
  · rw [if_pos hd, List.length_set]
  · rw [if_neg hd]

theorem assignIsoDirLBAs_isDir (st : List FileEntry × Nat) (j : Nat) :
    (getEntryD (assignIsoDirLBAs st).1 j).isDir = (getEntryD st.1 j).isDir := by
  rw [assignIsoDirLBAs]
  refine foldPass_isDir _ ?_ _ st j
  intro st' i j'
  by_cases hd : (getEntryD st'.1 i).isDir = true
  · rw [if_pos hd]
    show (getEntryD (st'.1.set i _) j').isDir = _
    rw [getEntryD_set]
    split
    · rename_i hc
      rw [← hc.1]
    · rfl
  · rw [if_neg hd]

theorem assignIsoDirLBAs_length (st : List FileEntry × Nat) :
    (assignIsoDirLBAs st).1.length = st.1.length := by
  rw [assignIsoDirLBAs]
  refine foldPass_length _ ?_ _ st
  intro st' i
  by_cases hd : (getEntryD st'.1 i).isDir = true
  · rw [if_pos hd]
    exact List.length_set _ _ _
  · rw [if_neg hd]

theorem assignFileLBAs_isDir (st : List FileEntry × Nat) (j : Nat) :
    (getEntryD (assignFileLBAs st).1 j).isDir = (getEntryD st.1 j).isDir := by
  rw [assignFileLBAs]
  refine foldPass_isDir _ ?_ _ st j
  intro st' i j'
  by_cases hd : (getEntryD st'.1 i).isDir = true
  · rw [if_pos hd]
  · rw [if_neg hd]
    show (getEntryD (st'.1.set i _) j').isDir = _
    rw [getEntryD_set]
    split
    · rename_i hc
      rw [← hc.1]
    · rfl

theorem assignFileLBAs_length (st : List FileEntry × Nat) :
    (assignFileLBAs st).1.length = st.1.length := by
  rw [assignFileLBAs]
  refine foldPass_length _ ?_ _ st
  intro st' i
  by_cases hd : (getEntryD st'.1 i).isDir = true
  · rw [if_pos hd]
  · rw [if_neg hd]
    exact List.length_set _ _ _

theorem assignJolietDirLBAs_isDir (st : List FileEntry × Nat) (j : Nat) :
    (getEntryD (assignJolietDirLBAs st).1 j).isDir = (getEntryD st.1 j).isDir := by
  rw [assignJolietDirLBAs]
  refine foldPass_isDir _ ?_ _ st j
  intro st' i j'
  by_cases hd : (getEntryD st'.1 i).isDir = true
  · rw [if_pos hd]
    show (getEntryD (st'.1.set i _) j').isDir = _
    rw [getEntryD_set]
    split
    · rename_i hc
      rw [← hc.1]
    · rfl
  · rw [if_neg hd]

theorem assignJolietDirLBAs_length (st : List FileEntry × Nat) :
    (assignJolietDirLBAs st).1.length = st.1.length := by
  rw [assignJolietDirLBAs]
  refine foldPass_length _ ?_ _ st
  intro st' i
  by_cases hd : (getEntryD st'.1 i).isDir = true
  · rw [if_pos hd]
    exact List.length_set _ _ _
  · rw [if_neg hd]

theorem calculateLayout_table_length (t : List FileEntry) :
    (calculateLayout t).table.length = t.length := by
  show (assignJolietDirLBAs (assignFileLBAs (assignIsoDirLBAs _))).1.length = _
  rw [assignJolietDirLBAs_length, assignFileLBAs_length, assignIsoDirLBAs_length]
  show (calculateAllDirectoryExtentSizes (assignSanitizedNamesAndDrSizes t)).length = _
  rw [calculateAllDirectoryExtentSizes_length, assignSanitizedNamesAndDrSizes,
    List.length_map]

theorem calculateLayout_isDir (t : List FileEntry) (j : Nat) (hj : j < t.length) :
    ((getEntryD (calculateLayout t).table j).isDir) = (getEntryD t j).isDir := by
  show (getEntryD (assignJolietDirLBAs (assignFileLBAs (assignIsoDirLBAs _))).1 j).isDir = _
  rw [assignJolietDirLBAs_isDir, assignFileLBAs_isDir, assignIsoDirLBAs_isDir]
  show (getEntryD (calculateAllDirectoryExtentSizes (assignSanitizedNamesAndDrSizes t)) j).isDir = _
  rw [calculateAllDirectoryExtentSizes_isDir, assignSanitizedNamesAndDrSizes,
    getEntryD_map_of_lt _ _ _ hj, (assignNamesEntry_fields _).1]

/-- After the whole layout pipeline, a regular file's entry is its
name-annotated form with both sector fields set to one shared LBA. -/
theorem calculateLayout_file_entry (t : List FileEntry) (j : Nat) (hj : j < t.length)
    (hfile : (getEntryD t j).isDir = false) :
    ∃ s, getEntryD (calculateLayout t).table j =
      { assignNamesEntry (getEntryD t j) with iso9660Sector := s, jolietSector := s } := by
  have h1 : getEntryD (assignSanitizedNamesAndDrSizes t) j = assignNamesEntry (getEntryD t j) := by
    rw [assignSanitizedNamesAndDrSizes, getEntryD_map_of_lt _ _ _ hj]
  have h1d : (getEntryD (assignSanitizedNamesAndDrSizes t) j).isDir = false := by
    rw [h1, (assignNamesEntry_fields _).1, hfile]
  have h2 : getEntryD (calculateAllDirectoryExtentSizes (assignSanitizedNamesAndDrSizes t)) j
      = assignNamesEntry (getEntryD t j) := by
    rw [calculateAllDirectoryExtentSizes_file _ _ h1d, h1]
  have h2d : (getEntryD (calculateAllDirectoryExtentSizes (assignSanitizedNamesAndDrSizes t)) j).isDir = false := by
    rw [calculateAllDirectoryExtentSizes_isDir, h1d]
  show ∃ s, getEntryD (assignJolietDirLBAs (assignFileLBAs (assignIsoDirLBAs
      (calculateAllDirectoryExtentSizes (assignSanitizedNamesAndDrSizes t),
        (determinePathTableLBAs (calculateAllDirectoryExtentSizes
          (assignSanitizedNamesAndDrSizes t)) (SystemAreaNumSectors + 3)).nextLBA)))).1 j = _
  have h3 := assignIsoDirLBAs_file
    (calculateAllDirectoryExtentSizes (assignSanitizedNamesAndDrSizes t),
      (determinePathTableLBAs (calculateAllDirectoryExtentSizes
        (assignSanitizedNamesAndDrSizes t)) (SystemAreaNumSectors + 3)).nextLBA) j h2d
  have h3d : (getEntryD (assignIsoDirLBAs
      (calculateAllDirectoryExtentSizes (assignSanitizedNamesAndDrSizes t),
        (determinePathTableLBAs (calculateAllDirectoryExtentSizes
          (assignSanitizedNamesAndDrSizes t)) (SystemAreaNumSectors + 3)).nextLBA)).1 j).isDir
      = false := by
    rw [assignIsoDirLBAs_isDir]
    exact h2d
  have hlen3 : j < (assignIsoDirLBAs
      (calculateAllDirectoryExtentSizes (assignSanitizedNamesAndDrSizes t),
        (determinePathTableLBAs (calculateAllDirectoryExtentSizes
          (assignSanitizedNamesAndDrSizes t)) (SystemAreaNumSectors + 3)).nextLBA)).1.length := by
    rw [assignIsoDirLBAs_length]
    show j < (calculateAllDirectoryExtentSizes (assignSanitizedNamesAndDrSizes t)).length
    rw [calculateAllDirectoryExtentSizes_length, assignSanitizedNamesAndDrSizes,
      List.length_map]
    exact hj
  rcases assignFileLBAs_file _ j h3d hlen3 with ⟨s, hs⟩
  have hs' : getEntryD (assignFileLBAs (assignIsoDirLBAs
      (calculateAllDirectoryExtentSizes (assignSanitizedNamesAndDrSizes t),
        (determinePathTableLBAs (calculateAllDirectoryExtentSizes
          (assignSanitizedNamesAndDrSizes t)) (SystemAreaNumSectors + 3)).nextLBA))).1 j
      = { assignNamesEntry (getEntryD t j) with iso9660Sector := s, jolietSector := s } := by
    rw [hs, h3, h2]
  have h4d : (getEntryD (assignFileLBAs (assignIsoDirLBAs
      (calculateAllDirectoryExtentSizes (assignSanitizedNamesAndDrSizes t),
        (determinePathTableLBAs (calculateAllDirectoryExtentSizes
          (assignSanitizedNamesAndDrSizes t)) (SystemAreaNumSectors + 3)).nextLBA))).1 j).isDir
      = false := by
    rw [hs']
    rw [show ({ assignNamesEntry (getEntryD t j) with iso9660Sector := s, jolietSector := s} : FileEntry).isDir
      = (assignNamesEntry (getEntryD t j)).isDir from rfl]
    rw [(assignNamesEntry_fields _).1, hfile]
  refine ⟨s, ?_⟩
  rw [assignJolietDirLBAs_file _ _ h4d, hs']

/-- C3 (confirmed): after the layout planner has run, every non-directory
entity has `primary_lba = joliet_lba` and `primary_extent_size =
joliet_extent_size`; the directory records emitted for a file in both
namespaces therefore point at the same file-data extent (the listing
builder feeds `iso9660Sector`/`iso9660Size` to both namespaces' records,
see `childLBASize`).  The hypothesis is the scanner invariant that a
file's two size fields start out equal (`scanDirectoryRecursive` sets
`jolietSize = iso9660Size`). -/
theorem calculateLayout_file_extents_shared (t : List FileEntry)
    (hsz : ∀ e ∈ t, e.isDir = false → e.iso9660Size = e.jolietSize) :
    ∀ e ∈ (calculateLayout t).table, e.isDir = false →
      e.iso9660Sector = e.jolietSector ∧ e.iso9660Size = e.jolietSize := by
  intro e he hdir
  rcases List.mem_iff_getElem.mp he with ⟨j, hjlen, hval⟩
  have hjt : j < t.length := by
    rw [← calculateLayout_table_length t]
    exact hjlen
  have he' : getEntryD (calculateLayout t).table j = e := by
    rw [getEntryD_eq_getElem _ _ hjlen, hval]
  have hfile : (getEntryD t j).isDir = false := by
    rw [← calculateLayout_isDir t j hjt, he', hdir]
  rcases calculateLayout_file_entry t j hjt hfile with ⟨s, hs⟩
  have he2 : e = { assignNamesEntry (getEntryD t j) with
      iso9660Sector := s, jolietSector := s } := by
    rw [← he', hs]
  have hmem : getEntryD t j ∈ t := by
    rw [getEntryD_eq_getElem _ _ hjt]
    exact List.getElem_mem hjt
  have hsize := hsz (getEntryD t j) hmem hfile
  rcases assignNamesEntry_fields (getEntryD t j) with ⟨_, hsz1, hsz2, _⟩
  constructor
  · rw [he2]
  · rw [he2]
    show (assignNamesEntry (getEntryD t j)).iso9660Size
      = (assignNamesEntry (getEntryD t j)).jolietSize
    rw [hsz1, hsz2]
    exact hsize

/-- Witness for `calculateLayout_file_extents_shared`: the scanned
`witnessTree` satisfies the scanner size invariant, and the planned entry
of the file `hello.txt` carries one shared LBA and one shared size. -/
theorem calculateLayout_file_extents_shared_witness :
    (getEntryD witnessTable 4).isDir = false ∧
      (getEntryD witnessTable 4).iso9660Sector = (getEntryD witnessTable 4).jolietSector ∧
      (getEntryD witnessTable 4).iso9660Size = (getEntryD witnessTable 4).jolietSize := by
  have hmem : getEntryD witnessTable 4 ∈ (calculateLayout witnessScan).table := by
    have : (4 : Nat) < witnessTable.length := by decide
    rw [getEntryD_eq_getElem _ _ this]
    exact List.getElem_mem this
  have hdir : (getEntryD witnessTable 4).isDir = false := by decide
  refine ⟨hdir, ?_⟩
  exact calculateLayout_file_extents_shared witnessScan (by decide)
    (getEntryD witnessTable 4) hmem hdir

/-! ### C7: path-table ordering -/

/-- `[0x00]` is strictly smaller than any identifier other than `[]` and
`[0x00]` itself under byte-wise comparison. -/
theorem bytesLt_zero_singleton (l : List Nat) (h1 : l ≠ []) (h2 : l ≠ [0]) :
    bytesLt [0] l = true := by
  match l with
  | [] => exact absurd rfl h1
  | x :: xs =>
    simp only [bytesLt]
    by_cases hx : 0 < x
    · rw [if_pos hx]
    · have hx0 : x = 0 := by omega
      subst hx0
      rw [if_neg (Nat.lt_irrefl 0), if_neg (Nat.lt_irrefl 0)]
      match xs with
      | [] => exact absurd rfl h2
      | _ :: _ => rfl

/-- The M-type comparator is exactly the strict lexicographic order on
`(parent number looked up through parentIndex, identifier bytes)`: the
comparator's extra `parentIndex` inequality test is redundant, because
equal parent indices give equal parent-number lookups. -/
theorem ptMLess_eq_pairLt (t : List FileEntry) (isJoliet : Bool) (a b : FileEntry) :
    ptMLess t isJoliet a b = pairLt (ptSortKey t isJoliet a) (ptSortKey t isJoliet b) := by
  show (if !(a.parentIndex == b.parentIndex)
        && !((getEntryD t a.parentIndex).pathTableDirNum
          == (getEntryD t b.parentIndex).pathTableDirNum) then
      decide ((getEntryD t a.parentIndex).pathTableDirNum
        < (getEntryD t b.parentIndex).pathTableDirNum)
    else bytesLt (ptIdentBytes isJoliet a) (ptIdentBytes isJoliet b))
    = if (getEntryD t a.parentIndex).pathTableDirNum
        == (getEntryD t b.parentIndex).pathTableDirNum then
      bytesLt (ptIdentBytes isJoliet a) (ptIdentBytes isJoliet b)
    else decide ((getEntryD t a.parentIndex).pathTableDirNum
      < (getEntryD t b.parentIndex).pathTableDirNum)
  by_cases hn : (getEntryD t a.parentIndex).pathTableDirNum
      = (getEntryD t b.parentIndex).pathTableDirNum
  · simp [hn]
  · have hp : a.parentIndex ≠ b.parentIndex := by
      intro h
      rw [h] at hn
      exact hn rfl
    simp [beq_eq_false_iff_ne.mpr hn, beq_eq_false_iff_ne.mpr hp]

/-- The parent number stored in a directory's path-table record equals
the comparator's lookup key, given that every entry numbered 1 has the
root (index 0, numbered 1) as parent. -/
theorem ptRecordFields_parent_eq_key (t : List FileEntry) (isJoliet : Bool)
    (hroot2 : (getEntryD t 0).pathTableDirNum = 1)
    (hone : ∀ e ∈ t, e.pathTableDirNum = 1 → e.parentIndex = 0)
    (e : FileEntry) (he : e ∈ t) :
    (ptRecordFields t isJoliet e).ParentDirectoryNumber = (ptSortKey t isJoliet e).1 := by
  show (if e.pathTableDirNum == 1 then 1
      else (getEntryD t e.parentIndex).pathTableDirNum)
    = (getEntryD t e.parentIndex).pathTableDirNum
  by_cases hn : e.pathTableDirNum = 1
  · rw [if_pos (beq_iff_eq.mpr hn), hone e he hn, hroot2]
  · rw [if_neg (by rw [beq_eq_false_iff_ne.mpr hn]; exact Bool.false_ne_true)]

/-- C7 (confirmed): for a table with the scanner's root shape (index 0 a
directory numbered 1 and parented to itself; every entry numbered 1
parented to index 0; every other directory reachable from a parent
numbered at least 1 and carrying a non-empty, non-`[0x00]` identifier),
the generated M-type table emits the root record first and orders any two
records primarily by the parent number stored in the record and, within
one parent number, by byte-wise comparison of the identifier bytes
(UCS-2BE for Joliet, raw ASCII for primary); the L-type table is ordered
by the directories' own path-table numbers ascending. -/
theorem createPathTable_ordering (t : List FileEntry) (isJoliet : Bool)
    (hlen : 0 < t.length)
    (hroot1 : (getEntryD t 0).isDir = true)
    (hroot2 : (getEntryD t 0).pathTableDirNum = 1)
    (hone : ∀ e ∈ t, e.pathTableDirNum = 1 → e.parentIndex = 0)
    (hother : ∀ e ∈ t, e.isDir = true → 0 < e.pathTableDirNum → e.pathTableDirNum ≠ 1 →
      1 ≤ (getEntryD t e.parentIndex).pathTableDirNum ∧
        ptIdentBytes isJoliet e ≠ [] ∧ ptIdentBytes isJoliet e ≠ [0]) :
    ((createPathTableSortedDirs t isJoliet true).Pairwise (fun a b =>
        (ptRecordFields t isJoliet a).ParentDirectoryNumber
            < (ptRecordFields t isJoliet b).ParentDirectoryNumber ∨
          ((ptRecordFields t isJoliet a).ParentDirectoryNumber
              = (ptRecordFields t isJoliet b).ParentDirectoryNumber ∧
            bytesLt (ptIdentBytes isJoliet b) (ptIdentBytes isJoliet a) = false))) ∧
      ((createPathTableSortedDirs t isJoliet true).head?.map
          (fun e => e.pathTableDirNum)) = some 1 ∧
      ((createPathTableSortedDirs t isJoliet false).Pairwise (fun a b =>
        a.pathTableDirNum ≤ b.pathTableDirNum)) := by
  have hsorteq : createPathTableSortedDirs t isJoliet true =
      sortLe (fun a b => !(pairLt (ptSortKey t isJoliet b) (ptSortKey t isJoliet a)))
        (t.filter (fun fe => fe.isDir && decide (0 < fe.pathTableDirNum))) := by
    rw [createPathTableSortedDirs]
    exact sortLe_congr _ _
      (fun a b => by
        rw [show ptLess t isJoliet true b a = ptMLess t isJoliet b a from rfl,
          ptMLess_eq_pairLt]) _
  have hPW : (createPathTableSortedDirs t isJoliet true).Pairwise
      (fun a b => pairLt (ptSortKey t isJoliet b) (ptSortKey t isJoliet a) = false) := by
    rw [hsorteq]
    exact pairwise_sortLe_keyed (ptSortKey t isJoliet) pairLt
      (fun _ _ h => pairLt_asymm h) (fun _ _ _ h1 h2 => pairLt_trans h1 h2)
      (fun _ _ h1 h2 => pairLt_eq_of_not h1 h2)
      (t.filter (fun fe => fe.isDir && decide (0 < fe.pathTableDirNum)))
  have hmemt : ∀ e ∈ createPathTableSortedDirs t isJoliet true,
      e ∈ t ∧ e.isDir = true ∧ 0 < e.pathTableDirNum := by
    intro e he
    rw [hsorteq, mem_sortLe] at he
    rcases List.mem_filter.mp he with ⟨het, hprop⟩
    rcases (Bool.and_eq_true _ _ ▸ hprop : _ ∧ _) with ⟨hd, hp⟩
    exact ⟨het, hd, of_decide_eq_true hp⟩
  refine ⟨?_, ?_, ?_⟩
  · refine hPW.imp_of_mem ?_
    intro a b ha hb hab
    rcases hmemt a ha with ⟨hat, _, _⟩
    rcases hmemt b hb with ⟨hbt, _, _⟩
    rw [ptRecordFields_parent_eq_key t isJoliet hroot2 hone a hat,
      ptRecordFields_parent_eq_key t isJoliet hroot2 hone b hbt]
    rw [pairLt] at hab
    by_cases heq : (ptSortKey t isJoliet b).1 = (ptSortKey t isJoliet a).1
    · rw [if_pos (beq_iff_eq.mpr heq)] at hab
      exact Or.inr ⟨heq.symm, hab⟩
    · rw [if_neg (by rw [beq_eq_false_iff_ne.mpr heq]; exact Bool.false_ne_true)] at hab
      left
      have := of_decide_eq_false hab
      omega
  · -- the root record comes first
    have hrootmem : getEntryD t 0 ∈ createPathTableSortedDirs t isJoliet true := by
      rw [hsorteq, mem_sortLe]
      refine List.mem_filter.mpr ⟨?_, ?_⟩
      · rw [getEntryD_eq_getElem _ _ hlen]
        exact List.getElem_mem hlen
      · rw [hroot1, hroot2]
        rfl
    rcases hhd : createPathTableSortedDirs t isJoliet true with _ | ⟨hd, rest⟩
    · rw [hhd] at hrootmem
      exact absurd hrootmem (List.not_mem_nil _)
    · simp only [List.head?_cons, Option.map_some']
      by_cases hnum : hd.pathTableDirNum = 1
      · rw [hnum]
      · exfalso
        have hle : ∀ x ∈ rest,
            pairLt (ptSortKey t isJoliet x) (ptSortKey t isJoliet hd) = false :=
          (List.pairwise_cons.mp (hhd ▸ hPW)).1
        have hdmem : hd ∈ createPathTableSortedDirs t isJoliet true := by
          rw [hhd]
          exact List.mem_cons_self _ _
        rcases hmemt hd hdmem with ⟨hdt, hdd, hdp⟩
        rcases hother hd hdt hdd hdp hnum with ⟨hge, hne1, hne2⟩
        have hrootpar : (getEntryD t 0).parentIndex = 0 :=
          hone (getEntryD t 0)
            (by rw [getEntryD_eq_getElem _ _ hlen]; exact List.getElem_mem hlen) hroot2
        have hrootkey1 : (ptSortKey t isJoliet (getEntryD t 0)).1 = 1 := by
          show (getEntryD t (getEntryD t 0).parentIndex).pathTableDirNum = 1
          rw [hrootpar, hroot2]
        have hrootkey2 : (ptSortKey t isJoliet (getEntryD t 0)).2 = [0] := by
          show ptIdentBytes isJoliet (getEntryD t 0) = [0]
          rw [ptIdentBytes, if_pos (beq_iff_eq.mpr hroot2)]
        have hkeyhd : (ptSortKey t isJoliet hd).1
            = (getEntryD t hd.parentIndex).pathTableDirNum := rfl
        have hlt : pairLt (ptSortKey t isJoliet (getEntryD t 0))
            (ptSortKey t isJoliet hd) = true := by
          rw [pairLt]
          by_cases hk : (ptSortKey t isJoliet (getEntryD t 0)).1
              = (ptSortKey t isJoliet hd).1
          · rw [if_pos (beq_iff_eq.mpr hk), hrootkey2]
            exact bytesLt_zero_singleton _ hne1 hne2
          · rw [if_neg (by rw [beq_eq_false_iff_ne.mpr hk]; exact Bool.false_ne_true),
              decide_eq_true_eq, hrootkey1, hkeyhd]
            rw [hrootkey1, hkeyhd] at hk
            omega
        rcases List.mem_cons.mp (hhd ▸ hrootmem) with hcase | hcase
        · rw [← hcase] at hnum
          exact hnum hroot2
        · rw [hle (getEntryD t 0) hcase] at hlt
          exact Bool.false_ne_true hlt
  · -- L-type ordering
    have hpairL := pairwise_sortLe_keyed (fun e : FileEntry => e.pathTableDirNum)
      (fun x y => decide (x < y))
      (fun x y h => by
        simp only [decide_eq_true_eq] at h
        simp only [decide_eq_false_iff_not]
        omega)
      (fun x y z h1 h2 => by
        simp only [decide_eq_true_eq] at h1 h2 ⊢
        omega)
      (fun x y h1 h2 => by
        simp only [decide_eq_false_iff_not] at h1 h2
        omega)
      (t.filter (fun fe => fe.isDir && decide (0 < fe.pathTableDirNum)))
    have hL : (createPathTableSortedDirs t isJoliet false).Pairwise
        (fun a b => decide (b.pathTableDirNum < a.pathTableDirNum) = false) :=
      hpairL.imp (fun h => h)
    refine hL.imp ?_
    intro a b h
    have := of_decide_eq_false h
    omega

/-- Witness for `createPathTable_ordering` at the planned `witnessTree`
table, primary namespace. -/
theorem createPathTable_ordering_witness :
    ((createPathTableSortedDirs witnessTable false true).Pairwise (fun a b =>
        (ptRecordFields witnessTable false a).ParentDirectoryNumber
            < (ptRecordFields witnessTable false b).ParentDirectoryNumber ∨
          ((ptRecordFields witnessTable false a).ParentDirectoryNumber
              = (ptRecordFields witnessTable false b).ParentDirectoryNumber ∧
            bytesLt (ptIdentBytes false b) (ptIdentBytes false a) = false))) ∧
      ((createPathTableSortedDirs witnessTable false true).head?.map
          (fun e => e.pathTableDirNum)) = some 1 ∧
      ((createPathTableSortedDirs witnessTable false false).Pairwise (fun a b =>
        a.pathTableDirNum ≤ b.pathTableDirNum)) :=
  createPathTable_ordering witnessTable false (by decide) (by decide) (by decide)
    (by decide) (by decide)

/-! ### C9: hidden-marking is invisible to the layout planner -/

@[simp] theorem eraseHidden_originalName (e : FileEntry) :
    (eraseHidden e).originalName = e.originalName := rfl

@[simp] theorem eraseHidden_isDir (e : FileEntry) :
    (eraseHidden e).isDir = e.isDir := rfl

@[simp] theorem eraseHidden_level (e : FileEntry) :
    (eraseHidden e).level = e.level := rfl

@[simp] theorem eraseHidden_parentIndex (e : FileEntry) :
    (eraseHidden e).parentIndex = e.parentIndex := rfl

@[simp] theorem eraseHidden_children (e : FileEntry) :
    (eraseHidden e).children = e.children := rfl

@[simp] theorem eraseHidden_iso9660Name (e : FileEntry) :
    (eraseHidden e).iso9660Name = e.iso9660Name := rfl

@[simp] theorem eraseHidden_jolietName (e : FileEntry) :
    (eraseHidden e).jolietName = e.jolietName := rfl

@[simp] theorem eraseHidden_iso9660Size (e : FileEntry) :
    (eraseHidden e).iso9660Size = e.iso9660Size := rfl

@[simp] theorem eraseHidden_jolietSize (e : FileEntry) :
    (eraseHidden e).jolietSize = e.jolietSize := rfl

@[simp] theorem eraseHidden_iso9660Sector (e : FileEntry) :
    (eraseHidden e).iso9660Sector = e.iso9660Sector := rfl

@[simp] theorem eraseHidden_jolietSector (e : FileEntry) :
    (eraseHidden e).jolietSector = e.jolietSector := rfl

@[simp] theorem eraseHidden_actualISO9660DrSize (e : FileEntry) :
    (eraseHidden e).actualISO9660DrSize = e.actualISO9660DrSize := rfl

@[simp] theorem eraseHidden_actualJolietDrSize (e : FileEntry) :
    (eraseHidden e).actualJolietDrSize = e.actualJolietDrSize := rfl

@[simp] theorem eraseHidden_pathTableDirNum (e : FileEntry) :
    (eraseHidden e).pathTableDirNum = e.pathTableDirNum := rfl

theorem eraseHidden_default : eraseHidden default = (default : FileEntry) := rfl

theorem getEntryD_map_erase (t : List FileEntry) (i : Nat) :
    getEntryD (t.map eraseHidden) i = eraseHidden (getEntryD t i) := by
  by_cases h : i < t.length
  · rw [getEntryD_map_of_lt _ _ _ h]
  · have h1 : t[i]? = none := List.getElem?_eq_none (Nat.le_of_not_lt h)
    have h2 : (t.map eraseHidden)[i]? = none :=
      List.getElem?_eq_none (by rw [List.length_map]; exact Nat.le_of_not_lt h)
    rw [getEntryD, getEntryD, List.getD_eq_getElem?_getD, List.getD_eq_getElem?_getD,
      h1, h2]
    rfl

theorem foldTab_erase (f : List FileEntry → Nat → List FileEntry)
    (hstep : ∀ t i j, eraseHidden (getEntryD (f t i) j) = eraseHidden (getEntryD t j)) :
    ∀ (l : List Nat) (t : List FileEntry) (j : Nat),
      eraseHidden (getEntryD (l.foldl f t) j) = eraseHidden (getEntryD t j)
  | [], _, _ => rfl
  | i :: is, t, j => by
    rw [List.foldl_cons, foldTab_erase f hstep is (f t i) j, hstep t i j]

/-- The inner marking loop changes nothing except `isHidden` flags. -/
theorem markHiddenInner_erase (t : List FileEntry) (name : String) (j : Nat) :
    eraseHidden (getEntryD (markHiddenInner t name) j) = eraseHidden (getEntryD t j) := by
  rw [markHiddenInner]
  refine foldTab_erase _ ?_ _ t j
  intro t' i j'
  by_cases h0 : (i == 0 && (getEntryD t' i).originalName == "\x00") = true
  · rw [if_pos h0]
  · rw [if_neg h0]
    by_cases hm : ((getEntryD t' i).originalName == name) = true
    · rw [if_pos hm, getEntryD_set]
      split
      · rename_i hc
        rw [← hc.1]
        rfl
      · rfl
    · rw [if_neg hm]

theorem markHiddenInner_length (t : List FileEntry) (name : String) :
    (markHiddenInner t name).length = t.length := by
  rw [markHiddenInner]
  refine foldTab_length _ ?_ _ t
  intro t' i
  by_cases h0 : (i == 0 && (getEntryD t' i).originalName == "\x00") = true
  · rw [if_pos h0]
  · rw [if_neg h0]
    by_cases hm : ((getEntryD t' i).originalName == name) = true
    · rw [if_pos hm]
      exact List.length_set _ _ _
    · rw [if_neg hm]

theorem markHiddenOne_erase (t : List FileEntry) (name : String) (j : Nat) :
    eraseHidden (getEntryD (markHiddenOne t name) j) = eraseHidden (getEntryD t j) := by
  rw [markHiddenOne]
  by_cases h1 : (name == "") = true
  · rw [if_pos h1]
  · rw [if_neg h1]
    by_cases h2 : (name == "." || name == "..") = true
    · rw [if_pos h2]
    · rw [if_neg h2]
      by_cases h3 : ((getEntryD t 0).originalName == name) = true
      · rw [if_pos h3]
      · rw [if_neg h3]
        exact markHiddenInner_erase t name j

theorem markHiddenOne_length (t : List FileEntry) (name : String) :
    (markHiddenOne t name).length = t.length := by
  rw [markHiddenOne]
  by_cases h1 : (name == "") = true
  · rw [if_pos h1]
  · rw [if_neg h1]
    by_cases h2 : (name == "." || name == "..") = true
    · rw [if_pos h2]
    · rw [if_neg h2]
      by_cases h3 : ((getEntryD t 0).originalName == name) = true
      · rw [if_pos h3]
      · rw [if_neg h3]
        exact markHiddenInner_length t name

theorem MarkFileNamesAsHidden_erase (names : List String) :
    ∀ (t : List FileEntry) (j : Nat),
      eraseHidden (getEntryD (MarkFileNamesAsHidden t names) j)
        = eraseHidden (getEntryD t j) := by
  induction names with
  | nil => intro t j; rfl
  | cons n ns ih =>
    intro t j
    show eraseHidden (getEntryD (MarkFileNamesAsHidden (markHiddenOne t n) ns) j) = _
    rw [ih (markHiddenOne t n) j, markHiddenOne_erase]

theorem MarkFileNamesAsHidden_length (names : List String) :
    ∀ t : List FileEntry, (MarkFileNamesAsHidden t names).length = t.length := by
  induction names with
  | nil => intro t; rfl
  | cons n ns ih =>
    intro t
    show (MarkFileNamesAsHidden (markHiddenOne t n) ns).length = _
    rw [ih (markHiddenOne t n), markHiddenOne_length]

theorem MarkFileNamesAsHidden_map_erase (t : List FileEntry) (names : List String) :
    (MarkFileNamesAsHidden t names).map eraseHidden = t.map eraseHidden := by
  refine List.ext_getElem (by rw [List.length_map, List.length_map,
    MarkFileNamesAsHidden_length]) ?_
  intro n h1 h2
  rw [List.getElem_map, List.getElem_map]
  have hn1 : n < (MarkFileNamesAsHidden t names).length := by
    rw [List.length_map] at h1
    exact h1
  have hn2 : n < t.length := by
    rw [List.length_map] at h2
    exact h2
  rw [← getEntryD_eq_getElem _ _ hn1, ← getEntryD_eq_getElem _ _ hn2]
  exact MarkFileNamesAsHidden_erase names t n

theorem foldTab_hidden (f : List FileEntry → Nat → List FileEntry) (name : String)
    (horig : ∀ t i j, (getEntryD (f t i) j).originalName = (getEntryD t j).originalName)
    (hhid : ∀ t i j, (getEntryD (f t i) j).isHidden = (getEntryD t j).isHidden ∨
      (getEntryD t j).originalName = name) :
    ∀ (l : List Nat) (t : List FileEntry) (j : Nat),
      (getEntryD (l.foldl f t) j).isHidden = (getEntryD t j).isHidden ∨
        (getEntryD t j).originalName = name
  | [], _, _ => Or.inl rfl
  | i :: is, t, j => by
    rw [List.foldl_cons]
    rcases foldTab_hidden f name horig hhid is (f t i) j with hcase | hcase
    · rcases hhid t i j with hh | hh
      · left
        rw [hcase, hh]
      · right
        exact hh
    · right
      rw [horig t i j] at hcase
      exact hcase

/-- A single inner-loop pass only raises `isHidden` on entries whose
original name equals `name`. -/
theorem markHiddenInner_hidden (t : List FileEntry) (name : String) (j : Nat) :
    (getEntryD (markHiddenInner t name) j).isHidden = (getEntryD t j).isHidden ∨
      (getEntryD t j).originalName = name := by
  rw [markHiddenInner]
  refine foldTab_hidden _ name ?_ ?_ _ t j
  · intro t' i j'
    by_cases h0 : (i == 0 && (getEntryD t' i).originalName == "\x00") = true
    · rw [if_pos h0]
    · rw [if_neg h0]
      by_cases hm : ((getEntryD t' i).originalName == name) = true
      · rw [if_pos hm, getEntryD_set]
        split
        · rename_i hc
          rw [← hc.1]
        · rfl
      · rw [if_neg hm]
  · intro t' i j'
    by_cases h0 : (i == 0 && (getEntryD t' i).originalName == "\x00") = true
    · rw [if_pos h0]
      left
      rfl
    · rw [if_neg h0]
      by_cases hm : ((getEntryD t' i).originalName == name) = true
      · rw [if_pos hm, getEntryD_set]
        split
        · rename_i hc
          right
          rw [← hc.1]
          exact beq_iff_eq.mp hm
        · left
          rfl
      · rw [if_neg hm]
        left
        rfl

theorem markHiddenOne_hidden (t : List FileEntry) (name : String) (j : Nat) :
    (getEntryD (markHiddenOne t name) j).isHidden = (getEntryD t j).isHidden ∨
      (getEntryD t j).originalName = name := by
  rw [markHiddenOne]
  by_cases h1 : (name == "") = true
  · rw [if_pos h1]; left; rfl
  · rw [if_neg h1]
    by_cases h2 : (name == "." || name == "..") = true
    · rw [if_pos h2]; left; rfl
    · rw [if_neg h2]
      by_cases h3 : ((getEntryD t 0).originalName == name) = true
      · rw [if_pos h3]; left; rfl
      · rw [if_neg h3]
        exact markHiddenInner_hidden t name j

/-- `MarkFileNamesAsHidden` flips `isHidden` only on entries whose
original name occurs among the requested names. -/
theorem MarkFileNamesAsHidden_hidden (names : List String) :
    ∀ (t : List FileEntry) (j : Nat),
      (getEntryD (MarkFileNamesAsHidden t names) j).isHidden
          = (getEntryD t j).isHidden ∨
        (getEntryD t j).originalName ∈ names := by
  induction names with
  | nil => intro t j; left; rfl
  | cons n ns ih =>
    intro t j
    have horig : (getEntryD (markHiddenOne t n) j).originalName
        = (getEntryD t j).originalName := by
      calc (getEntryD (markHiddenOne t n) j).originalName
          = (eraseHidden (getEntryD (markHiddenOne t n) j)).originalName := rfl
        _ = (eraseHidden (getEntryD t j)).originalName := by rw [markHiddenOne_erase]
        _ = (getEntryD t j).originalName := rfl
    show (getEntryD (MarkFileNamesAsHidden (markHiddenOne t n) ns) j).isHidden
        = _ ∨ _
    rcases ih (markHiddenOne t n) j with hcase | hcase
    · rcases markHiddenOne_hidden t n j with hh | hh
      · left
        rw [hcase, hh]
      · right
        rw [List.mem_cons]
        left
        exact hh
    · right
      rw [horig] at hcase
      exact List.mem_cons_of_mem n hcase

theorem assignNamesEntry_erase (e : FileEntry) :
    assignNamesEntry (eraseHidden e) = eraseHidden (assignNamesEntry e) := by
  by_cases h1 : e.isDir = true <;> by_cases h2 : (e.pathTableDirNum == 1) = true <;>
    simp [assignNamesEntry, eraseHidden, h1, h2]

theorem assignSanitizedNamesAndDrSizes_map_erase (t : List FileEntry) :
    assignSanitizedNamesAndDrSizes (t.map eraseHidden)
      = (assignSanitizedNamesAndDrSizes t).map eraseHidden := by
  rw [assignSanitizedNamesAndDrSizes, assignSanitizedNamesAndDrSizes,
    List.map_map, List.map_map]
  congr 1
  funext e
  exact assignNamesEntry_erase e

theorem calculateSingleDirectoryExtentSizeBytes_map_erase (t : List FileEntry)
    (dirEntryIndex : Nat) (isJoliet : Bool) :
    calculateSingleDirectoryExtentSizeBytes (t.map eraseHidden) dirEntryIndex isJoliet
      = calculateSingleDirectoryExtentSizeBytes t dirEntryIndex isJoliet := by
  simp only [calculateSingleDirectoryExtentSizeBytes, getEntryD_map_erase,
    eraseHidden_pathTableDirNum, eraseHidden_children, eraseHidden_actualJolietDrSize,
    eraseHidden_actualISO9660DrSize]

theorem calculateAllDirectoryExtentSizes_map_erase (t : List FileEntry) :
    calculateAllDirectoryExtentSizes (t.map eraseHidden)
      = (calculateAllDirectoryExtentSizes t).map eraseHidden := by
  rw [calculateAllDirectoryExtentSizes, calculateAllDirectoryExtentSizes,
    List.length_map]
  refine List.foldl_hom (List.map eraseHidden) _ _ (List.range t.length) t ?_
  intro acc i
  by_cases hd : (getEntryD acc i).isDir = true
  · rw [if_pos (by rw [getEntryD_map_erase, eraseHidden_isDir]; exact hd), if_pos hd,
      List.map_set]
    congr 1
    rw [getEntryD_map_erase, calculateSingleDirectoryExtentSizeBytes_map_erase,
      calculateSingleDirectoryExtentSizeBytes_map_erase]
    simp [eraseHidden]
  · rw [if_neg (by rw [getEntryD_map_erase, eraseHidden_isDir]; exact hd), if_neg hd]

theorem assignIsoDirLBAs_map_erase (st : List FileEntry × Nat) :
    assignIsoDirLBAs (st.1.map eraseHidden, st.2)
      = ((assignIsoDirLBAs st).1.map eraseHidden, (assignIsoDirLBAs st).2) := by
  rw [assignIsoDirLBAs, assignIsoDirLBAs]
  show (List.range (st.1.map eraseHidden).length).foldl _ _ = _
  rw [List.length_map]
  refine List.foldl_hom (fun p : List FileEntry × Nat => (p.1.map eraseHidden, p.2))
    _ _ (List.range st.1.length) st ?_
  intro acc i
  by_cases hd : (getEntryD acc.1 i).isDir = true
  · rw [if_pos (by rw [getEntryD_map_erase, eraseHidden_isDir]; exact hd), if_pos hd]
    dsimp only
    rw [getEntryD_map_erase, List.map_set]
    rw [show ({ eraseHidden (getEntryD acc.1 i) with iso9660Sector := acc.2 } : FileEntry)
        = eraseHidden { getEntryD acc.1 i with iso9660Sector := acc.2 } by
      simp [eraseHidden]]
    rw [eraseHidden_iso9660Size]
  · rw [if_neg (by rw [getEntryD_map_erase, eraseHidden_isDir]; exact hd), if_neg hd]

theorem assignFileLBAs_map_erase (st : List FileEntry × Nat) :
    assignFileLBAs (st.1.map eraseHidden, st.2)
      = ((assignFileLBAs st).1.map eraseHidden, (assignFileLBAs st).2) := by
  rw [assignFileLBAs, assignFileLBAs]
  show (List.range (st.1.map eraseHidden).length).foldl _ _ = _
  rw [List.length_map]
  refine List.foldl_hom (fun p : List FileEntry × Nat => (p.1.map eraseHidden, p.2))
    _ _ (List.range st.1.length) st ?_
  intro acc i
  by_cases hd : (getEntryD acc.1 i).isDir = true
  · rw [if_pos (by rw [getEntryD_map_erase, eraseHidden_isDir]; exact hd), if_pos hd]
  · rw [if_neg (by rw [getEntryD_map_erase, eraseHidden_isDir]; exact hd), if_neg hd]
    dsimp only
    rw [getEntryD_map_erase, List.map_set]
    rw [show ({ eraseHidden (getEntryD acc.1 i) with
          iso9660Sector := acc.2, jolietSector := acc.2 } : FileEntry)
        = eraseHidden { getEntryD acc.1 i with
          iso9660Sector := acc.2, jolietSector := acc.2 } by
      simp [eraseHidden]]
    rw [eraseHidden_iso9660Size]

theorem assignJolietDirLBAs_map_erase (st : List FileEntry × Nat) :
    assignJolietDirLBAs (st.1.map eraseHidden, st.2)
      = ((assignJolietDirLBAs st).1.map eraseHidden, (assignJolietDirLBAs st).2) := by
  rw [assignJolietDirLBAs, assignJolietDirLBAs]
  show (List.range (st.1.map eraseHidden).length).foldl _ _ = _
  rw [List.length_map]
  refine List.foldl_hom (fun p : List FileEntry × Nat => (p.1.map eraseHidden, p.2))
    _ _ (List.range st.1.length) st ?_
  intro acc i
  by_cases hd : (getEntryD acc.1 i).isDir = true
  · rw [if_pos (by rw [getEntryD_map_erase, eraseHidden_isDir]; exact hd), if_pos hd]
    dsimp only
    rw [getEntryD_map_erase, List.map_set]
    rw [show ({ eraseHidden (getEntryD acc.1 i) with jolietSector := acc.2 } : FileEntry)
        = eraseHidden { getEntryD acc.1 i with jolietSector := acc.2 } by
      simp [eraseHidden]]
    rw [eraseHidden_jolietSize]
  · rw [if_neg (by rw [getEntryD_map_erase, eraseHidden_isDir]; exact hd), if_neg hd]

theorem assignContentLBAs_map_erase (t : List FileEntry) (startLBA : Nat) :
    assignContentLBAs (t.map eraseHidden) startLBA
      = ((assignContentLBAs t startLBA).1.map eraseHidden,
          (assignContentLBAs t startLBA).2) := by
  rw [assignContentLBAs, assignContentLBAs]
  rw [show ((t.map eraseHidden : List FileEntry), startLBA)
      = ((t, startLBA).1.map eraseHidden, (t, startLBA).2) from rfl]
  rw [assignIsoDirLBAs_map_erase, assignFileLBAs_map_erase, assignJolietDirLBAs_map_erase]

theorem ptIdentBytes_erase (isJoliet : Bool) (e : FileEntry) :
    ptIdentBytes isJoliet (eraseHidden e) = ptIdentBytes isJoliet e := by
  simp [ptIdentBytes]

theorem ptLess_map_erase (t : List FileEntry) (isJoliet useBigEndian : Bool)
    (a b : FileEntry) :
    ptLess (t.map eraseHidden) isJoliet useBigEndian (eraseHidden a) (eraseHidden b)
      = ptLess t isJoliet useBigEndian a b := by
  rw [ptLess, ptLess]
  cases useBigEndian
  · simp only [Bool.false_eq_true, if_false, eraseHidden_pathTableDirNum]
  · simp only [if_true]
    rw [ptMLess, ptMLess]
    simp only [eraseHidden_parentIndex, getEntryD_map_erase,
      eraseHidden_pathTableDirNum, ptIdentBytes_erase]

theorem createPathTableSortedDirs_map_erase (t : List FileEntry)
    (isJoliet useBigEndian : Bool) :
    createPathTableSortedDirs (t.map eraseHidden) isJoliet useBigEndian
      = (createPathTableSortedDirs t isJoliet useBigEndian).map eraseHidden := by
  rw [createPathTableSortedDirs, createPathTableSortedDirs]
  rw [List.filter_map]
  rw [show ((fun fe => fe.isDir && decide (0 < fe.pathTableDirNum)) ∘ eraseHidden)
      = (fun fe : FileEntry => fe.isDir && decide (0 < fe.pathTableDirNum)) by
    funext e
    simp]
  exact sortLe_map eraseHidden _ _
    (fun a b => by rw [ptLess_map_erase]) _

theorem ptRecordFields_map_erase (t : List FileEntry) (isJoliet : Bool) (e : FileEntry) :
    ptRecordFields (t.map eraseHidden) isJoliet (eraseHidden e)
      = ptRecordFields t isJoliet e := by
  rw [ptRecordFields, ptRecordFields]
  simp only [eraseHidden_pathTableDirNum, eraseHidden_jolietSector,
    eraseHidden_iso9660Sector, eraseHidden_parentIndex, getEntryD_map_erase]

theorem createPathTable_map_erase (t : List FileEntry) (isJoliet useBigEndian : Bool) :
    createPathTable (t.map eraseHidden) isJoliet useBigEndian
      = createPathTable t isJoliet useBigEndian := by
  rw [createPathTable, createPathTable, createPathTableSortedDirs_map_erase,
    List.flatMap_map]
  congr 1
  funext dir
  rw [ptRecordFields_map_erase, ptIdentBytes_erase]

theorem calculatePathTableTotalBytes_map_erase (t : List FileEntry) (isJoliet : Bool) :
    calculatePathTableTotalBytes (t.map eraseHidden) isJoliet
      = calculatePathTableTotalBytes t isJoliet := by
  rw [calculatePathTableTotalBytes, calculatePathTableTotalBytes, List.foldl_map]
  congr 1

theorem determinePathTableLBAs_map_erase (t : List FileEntry) (startLBA : Nat) :
    determinePathTableLBAs (t.map eraseHidden) startLBA
      = determinePathTableLBAs t startLBA := by
  simp only [determinePathTableLBAs, calculatePathTableTotalBytes_map_erase]

/-- The layout planner neither reads nor writes the `isHidden` flag:
running it on a hidden-erased table gives the hidden-erased result. -/
theorem calculateLayout_map_erase (t : List FileEntry) :
    calculateLayout (t.map eraseHidden) = eraseHiddenLayout (calculateLayout t) := by
  simp only [calculateLayout, eraseHiddenLayout]
  rw [assignSanitizedNamesAndDrSizes_map_erase, calculateAllDirectoryExtentSizes_map_erase,
    determinePathTableLBAs_map_erase, assignContentLBAs_map_erase]
  simp only [createPathTable_map_erase, getEntryD_map_erase, eraseHidden_iso9660Size,
    eraseHidden_jolietSize]

/-- C9 (confirmed): marking any list of names as hidden mutates only
`isHidden` flags (hidden-erased tables are unchanged), raises a flag only
on entries whose original name occurs among the names, and is invisible
to the layout planner: running `calculateLayout` after any marking yields
the same sanitised names, directory-record sizes, extent sizes, LBAs,
pre-generated path-table bytes, `totalSectors` and root extent sizes as
running it unmarked (everything in the `LayoutResult` apart from the
hidden flags themselves). -/
theorem MarkFileNamesAsHidden_frame (t : List FileEntry) (names : List String) :
    ((MarkFileNamesAsHidden t names).map eraseHidden = t.map eraseHidden) ∧
      (∀ j : Nat, (getEntryD (MarkFileNamesAsHidden t names) j).isHidden
            = (getEntryD t j).isHidden ∨
          (getEntryD t j).originalName ∈ names) ∧
      eraseHiddenLayout (calculateLayout (MarkFileNamesAsHidden t names))
        = eraseHiddenLayout (calculateLayout t) := by
  refine ⟨MarkFileNamesAsHidden_map_erase t names,
    fun j => MarkFileNamesAsHidden_hidden names t j, ?_⟩
  calc eraseHiddenLayout (calculateLayout (MarkFileNamesAsHidden t names))
      = calculateLayout ((MarkFileNamesAsHidden t names).map eraseHidden) :=
        (calculateLayout_map_erase _).symm
    _ = calculateLayout (t.map eraseHidden) := by
        rw [MarkFileNamesAsHidden_map_erase]
    _ = eraseHiddenLayout (calculateLayout t) := calculateLayout_map_erase t
